import Mathlib

/-!
# gookauth: request signing and URL construction

A shallow embedding of `gookauth.go` (an OAuth client for mail.ru) together with
the parts of the Go standard library it calls (`net/url`, `sort.Strings`,
`crypto/md5`, hexadecimal formatting, `encoding/json`).

Go strings are immutable byte sequences, so a Go string is modelled as a list of
bytes.  Source string literals are turned into bytes by UTF-8 encoding, as the Go
compiler does.
-/

namespace Gookauth

/-! ## Go strings -/

abbrev Byte := Fin 256

abbrev GoString := List Byte

/-- UTF-8 encoding of one code point. -/
def utf8EncodeChar (c : Char) : List Byte :=
  let n := c.toNat
  if n < 0x80 then [Fin.ofNat n]
  else if n < 0x800 then [Fin.ofNat (0xC0 + n / 64), Fin.ofNat (0x80 + n % 64)]
  else if n < 0x10000 then
    [Fin.ofNat (0xE0 + n / 4096), Fin.ofNat (0x80 + n / 64 % 64), Fin.ofNat (0x80 + n % 64)]
  else
    [Fin.ofNat (0xF0 + n / 262144), Fin.ofNat (0x80 + n / 4096 % 64),
     Fin.ofNat (0x80 + n / 64 % 64), Fin.ofNat (0x80 + n % 64)]

/-- The bytes of a source string literal. -/
def str (s : String) : GoString := s.toList.flatMap utf8EncodeChar

/-- Go's `<=` on strings: byte-wise lexicographic comparison. -/
def strLE : GoString → GoString → Bool
  | [], _ => true
  | _ :: _, [] => false
  | a :: as, b :: bs => if a.val < b.val then true else if b.val < a.val then false else strLE as bs

/-- The order `sort.Strings` sorts by. -/
def StrLE (a b : GoString) : Prop := strLE a b = true

instance : DecidableRel StrLE := fun a b => inferInstanceAs (Decidable (strLE a b = true))

/-- Model of `sort.Strings`: the slice sorted in increasing byte-wise order. -/
def sortStrings (keys : List GoString) : List GoString := keys.insertionSort StrLE

/-! ## crypto/md5 (RFC 1321) and `%x` formatting -/

namespace md5

def table : List Nat := [
  0xd76aa478, 0xe8c7b756, 0x242070db, 0xc1bdceee, 0xf57c0faf, 0x4787c62a, 0xa8304613, 0xfd469501,
  0x698098d8, 0x8b44f7af, 0xffff5bb1, 0x895cd7be, 0x6b901122, 0xfd987193, 0xa679438e, 0x49b40821,
  0xf61e2562, 0xc040b340, 0x265e5a51, 0xe9b6c7aa, 0xd62f105d, 0x02441453, 0xd8a1e681, 0xe7d3fbc8,
  0x21e1cde6, 0xc33707d6, 0xf4d50d87, 0x455a14ed, 0xa9e3e905, 0xfcefa3f8, 0x676f02d9, 0x8d2a4c8a,
  0xfffa3942, 0x8771f681, 0x6d9d6122, 0xfde5380c, 0xa4beea44, 0x4bdecfa9, 0xf6bb4b60, 0xbebfbc70,
  0x289b7ec6, 0xeaa127fa, 0xd4ef3085, 0x04881d05, 0xd9d4d039, 0xe6db99e5, 0x1fa27cf8, 0xc4ac5665,
  0xf4292244, 0x432aff97, 0xab9423a7, 0xfc93a039, 0x655b59c3, 0x8f0ccc92, 0xffeff47d, 0x85845dd1,
  0x6fa87e4f, 0xfe2ce6e0, 0xa3014314, 0x4e0811a1, 0xf7537e82, 0xbd3af235, 0x2ad7d2bb, 0xeb86d391]

def shifts : List Nat := [
  7, 12, 17, 22, 7, 12, 17, 22, 7, 12, 17, 22, 7, 12, 17, 22,
  5, 9, 14, 20, 5, 9, 14, 20, 5, 9, 14, 20, 5, 9, 14, 20,
  4, 11, 16, 23, 4, 11, 16, 23, 4, 11, 16, 23, 4, 11, 16, 23,
  6, 10, 15, 21, 6, 10, 15, 21, 6, 10, 15, 21, 6, 10, 15, 21]

/-- Truncation to an unsigned 32-bit word. -/
def w32 (n : Nat) : Nat := n % 4294967296

/-- Bitwise complement of a 32-bit word. -/
def not32 (x : Nat) : Nat := 4294967295 - w32 x

/-- Left rotation of a 32-bit word. -/
def rotl (x s : Nat) : Nat := w32 ((w32 x <<< s) ||| (w32 x >>> (32 - s)))

/-- The four chaining words. -/
structure State where
  a : Nat
  b : Nat
  c : Nat
  d : Nat
deriving DecidableEq

def init : State := ⟨0x67452301, 0xefcdab89, 0x98badcfe, 0x10325476⟩

/-- Operation `i` (0..63) of the compression function on message words `m`. -/
def step (m : List Nat) (st : State) (i : Nat) : State :=
  let f := if i < 16 then (st.b &&& st.c) ||| (not32 st.b &&& st.d)
    else if i < 32 then (st.d &&& st.b) ||| (not32 st.d &&& st.c)
    else if i < 48 then st.b ^^^ st.c ^^^ st.d
    else st.c ^^^ (st.b ||| not32 st.d)
  let g := if i < 16 then i
    else if i < 32 then (5 * i + 1) % 16
    else if i < 48 then (3 * i + 5) % 16
    else (7 * i) % 16
  let x := w32 (f + st.a + table.getD i 0 + m.getD g 0)
  ⟨st.d, w32 (st.b + rotl x (shifts.getD i 0)), st.b, st.c⟩

/-- A little-endian 32-bit word. -/
def word (bs : List Byte) : Nat :=
  match bs with
  | [b0, b1, b2, b3] => b0.val + 256 * b1.val + 65536 * b2.val + 16777216 * b3.val
  | _ => 0

def words : Nat → List Byte → List Nat
  | 0, _ => []
  | n + 1, bs => word (bs.take 4) :: words n (bs.drop 4)

/-- Compression of one 64-byte block. -/
def block (st : State) (p : List Byte) : State :=
  let m := words 16 p
  let r := (List.range 64).foldl (step m) st
  ⟨w32 (st.a + r.a), w32 (st.b + r.b), w32 (st.c + r.c), w32 (st.d + r.d)⟩

def blocks : Nat → State → List Byte → State
  | 0, st, _ => st
  | n + 1, st, bs => blocks n (block st (bs.take 64)) (bs.drop 64)

/-- The `k` low bytes of `n`, least significant first. -/
def le (n : Nat) : Nat → List Byte
  | 0 => []
  | k + 1 => Fin.ofNat (n % 256) :: le (n / 256) k

/-- Message padding: a 1 bit, zeros up to 56 mod 64, then the bit length on 64 bits. -/
def pad (msg : List Byte) : List Byte :=
  let l := msg.length
  msg ++ (128 : Byte) :: List.replicate ((119 - l % 64) % 64) (0 : Byte)
    ++ le (8 * l % 18446744073709551616) 8

/-- The 16-byte MD5 digest of `msg` (`h.Write(msg); h.Sum(nil)`). -/
def Sum (msg : List Byte) : List Byte :=
  let p := pad msg
  let st := blocks (p.length / 64) init p
  le st.a 4 ++ le st.b 4 ++ le st.c 4 ++ le st.d 4

end md5

/-- Lowercase hexadecimal digit of a nibble. -/
def lowerhex (n : Nat) : Byte := if n < 10 then Fin.ofNat (48 + n) else Fin.ofNat (87 + n)

/-- Model of `fmt.Sprintf("%x", bs)` on a byte slice: two lowercase hex digits per byte. -/
def hex (bs : List Byte) : GoString := bs.flatMap fun b => [lowerhex (b.val / 16), lowerhex (b.val % 16)]

/-! ## Errors -/

/-- Go `error` values: the two package-level errors of gookauth, the error of
`net/url` unescaping, and any other error a collaborator (transport, JSON decoder)
may return. -/
inductive Error where
  | ErrorBadCode
  | ErrorBadResponse
  | EscapeError (s : GoString)
  | other (msg : GoString)
deriving DecidableEq

/-! ## net/url -/

inductive encoding where
  | encodePath
  | encodePathSegment
  | encodeHost
  | encodeZone
  | encodeUserPassword
  | encodeQueryComponent
  | encodeFragment
deriving DecidableEq

open encoding

/-- ASCII letter or digit. -/
def isAlnum (c : Byte) : Bool :=
  (97 ≤ c.val && c.val ≤ 122) || (65 ≤ c.val && c.val ≤ 90) || (48 ≤ c.val && c.val ≤ 57)

/-- Model of `shouldEscape`: whether byte `c` must be percent-encoded in `mode`. -/
def shouldEscape (c : Byte) (mode : encoding) : Bool :=
  if isAlnum c then false
  -- host sub-delims: ! $ & ' ( ) * + , ; = : [ ] < > "
  else if (mode = encodeHost ∨ mode = encodeZone) ∧
      c ∈ ([33, 36, 38, 39, 40, 41, 42, 43, 44, 59, 61, 58, 91, 93, 60, 62, 34] : List Byte) then false
  -- unreserved marks: - _ . ~
  else if c ∈ ([45, 95, 46, 126] : List Byte) then false
  -- reserved: $ & + , / : ; = ? @
  else if c ∈ ([36, 38, 43, 44, 47, 58, 59, 61, 63, 64] : List Byte) then
    match mode with
    | encodePath => c = 63
    | encodePathSegment => c = 47 || c = 59 || c = 44 || c = 63
    | encodeUserPassword => c = 64 || c = 47 || c = 63 || c = 58
    | encodeQueryComponent => true
    | encodeFragment => false
    | _ => true
  -- fragment sub-delims: ! ( ) *
  else if mode = encodeFragment ∧ c ∈ ([33, 40, 41, 42] : List Byte) then false
  else true

/-- Digit `n` of `"0123456789ABCDEF"`. -/
def upperhex (n : Nat) : Byte := if n < 10 then Fin.ofNat (48 + n) else Fin.ofNat (55 + n)

/-- What `escape` writes for one byte once it has decided to rewrite the string. -/
def escapeByte (mode : encoding) (c : Byte) : GoString :=
  if c = 32 ∧ mode = encodeQueryComponent then [43]
  else if shouldEscape c mode then [37, upperhex (c.val / 16), upperhex (c.val % 16)]
  else [c]

/-- Model of `escape`: count what needs escaping, return `s` itself when nothing
does, otherwise rewrite byte by byte. -/
def escape (s : GoString) (mode : encoding) : GoString :=
  let spaceCount := s.countP fun c => shouldEscape c mode && (c = 32 && mode = encodeQueryComponent)
  let hexCount := s.countP fun c => shouldEscape c mode && !(c = 32 && mode = encodeQueryComponent)
  if spaceCount = 0 ∧ hexCount = 0 then s else s.flatMap (escapeByte mode)

def QueryEscape (s : GoString) : GoString := escape s encodeQueryComponent

def ishex (c : Byte) : Bool :=
  (48 ≤ c.val && c.val ≤ 57) || (97 ≤ c.val && c.val ≤ 102) || (65 ≤ c.val && c.val ≤ 70)

def unhex (c : Byte) : Nat :=
  if 48 ≤ c.val ∧ c.val ≤ 57 then c.val - 48
  else if 97 ≤ c.val ∧ c.val ≤ 102 then c.val - 97 + 10
  else if 65 ≤ c.val ∧ c.val ≤ 70 then c.val - 65 + 10
  else 0

/-- First pass of `unescape` in query-component mode: count the `%`, check that each
is followed by two hex digits, and note whether a `+` occurs. -/
def unescapeScan : GoString → Nat → Bool → Except Error (Nat × Bool)
  | [], n, hasPlus => .ok (n, hasPlus)
  | c :: rest, n, hasPlus =>
    if c = 37 then
      match rest with
      | a :: b :: rest2 =>
        if ishex a && ishex b then unescapeScan rest2 (n + 1) hasPlus
        else .error (.EscapeError ((c :: rest).take 3))
      | _ => .error (.EscapeError ((c :: rest).take 3))
    else if c = 43 then unescapeScan rest n true
    else unescapeScan rest n hasPlus

/-- Second pass of `unescape` in query-component mode: decode `%XX` and `+`. -/
def unescapeBuild : GoString → GoString
  | [] => []
  | c :: rest =>
    if c = 37 then
      match rest with
      | a :: b :: rest2 => Fin.ofNat ((unhex a <<< 4 ||| unhex b) % 256) :: unescapeBuild rest2
      | _ => []
    else if c = 43 then 32 :: unescapeBuild rest
    else c :: unescapeBuild rest

/-- Model of `QueryUnescape(s)`, that is `unescape(s, encodeQueryComponent)`. -/
def QueryUnescape (s : GoString) : Except Error GoString :=
  match unescapeScan s 0 false with
  | .error e => .error e
  | .ok (n, hasPlus) => if n = 0 ∧ hasPlus = false then .ok s else .ok (unescapeBuild s)

/-- Model of `url.Values`, a `map[string][]string`: an association list from keys to
value slices.  A Go map holds each key once (`Values.WF`); the order of the entries
stands for the unspecified iteration order of the map. -/
abbrev Values := List (GoString × List GoString)

namespace Values

/-- The keys in iteration order (`for k := range v`). -/
def keys (v : Values) : List GoString := v.map Prod.fst

/-- Each key occurs once. -/
def WF (v : Values) : Prop := (keys v).Nodup

/-- Map indexing `v[key]`: the slice stored under `key`, nil when absent. -/
def lookup : Values → GoString → List GoString
  | [], _ => []
  | (k, vs) :: rest, key => if k = key then vs else lookup rest key

/-- Map assignment `v[key] = vs`. -/
def store : Values → GoString → List GoString → Values
  | [], key, vs => [(key, vs)]
  | (k, old) :: rest, key, vs =>
    if k = key then (k, vs) :: rest else (k, old) :: store rest key vs

/-- The first value associated with `key`, or the empty string. -/
def Get (v : Values) (key : GoString) : GoString :=
  match lookup v key with
  | [] => []
  | x :: _ => x

/-- Replaces the values of `key` by the single `value`. -/
def Set (v : Values) (key value : GoString) : Values := store v key [value]

/-- Appends `value` to the values of `key`. -/
def Add (v : Values) (key value : GoString) : Values := store v key (lookup v key ++ [value])

/-- Deletes `key`. -/
def Del (v : Values) (key : GoString) : Values := v.filter fun e => decide (e.1 ≠ key)

/-- Model of `Values.Encode`: keys sorted, each value written as
`QueryEscape(key)=QueryEscape(value)`, an `&` written before every pair that does not
start the buffer. -/
def Encode (v : Values) : GoString :=
  (sortStrings (keys v)).foldl
    (fun buf k =>
      let keyEscaped := QueryEscape k
      (lookup v k).foldl
        (fun buf x => (if buf.length > 0 then buf ++ [38] else buf) ++ keyEscaped ++ [61] ++ QueryEscape x)
        buf)
    []

end Values

/-- The pieces of `s` between occurrences of `&`. -/
def splitAmp : GoString → List GoString
  | [] => [[]]
  | c :: cs =>
    if c = 38 then [] :: splitAmp cs
    else
      match splitAmp cs with
      | p :: ps => (c :: p) :: ps
      | [] => [[c]]

/-- Model of `strings.Cut(s, sep)` for a one-byte separator. -/
def Cut : GoString → Byte → GoString × GoString × Bool
  | [], _ => ([], [], false)
  | c :: cs, sep =>
    if c = sep then ([], cs, true)
    else
      let r := Cut cs sep
      (c :: r.1, r.2.1, r.2.2)

/-- One iteration of the loop of `parseQuery` (Go 1.17 and later) on the piece `key`
cut off at the next `&`: pieces with a semicolon, empty pieces and pieces that fail
to unescape are skipped. -/
def parseQueryPiece (m : Values) (key : GoString) : Values :=
  if (59 : Byte) ∈ key then m
  else if key = [] then m
  else
    let r := Cut key 61
    match QueryUnescape r.1 with
    | .error _ => m
    | .ok k =>
      match QueryUnescape r.2.1 with
      | .error _ => m
      | .ok value => Values.Add m k value

/-- Model of `ParseQuery`, keeping the map and dropping the error as `URL.Query` does.
The loop `for query != "" { key, query, _ = strings.Cut(query, "&"); ... }` visits the
pieces between `&` from left to right.  This is `net/url` from Go 1.17 up to the
release that refuses a query of more than 10000 pieces; that limit is not modelled. -/
def ParseQuery (query : GoString) : Values := (splitAmp query).foldl parseQueryPiece []

/-- The fields of `url.URL` that gookauth sets; `Opaque`, `User`, `RawPath`,
`ForceQuery`, `OmitHost` and `Fragment` keep their zero values throughout. -/
structure URL where
  Scheme : GoString
  Host : GoString
  Path : GoString
  RawQuery : GoString
deriving DecidableEq

namespace URL

/-- The zero value `url.URL{}`. -/
def zero : URL := ⟨[], [], [], []⟩

def Query (u : URL) : Values := ParseQuery u.RawQuery

/-- Model of `EscapedPath` when `RawPath` is empty. -/
def EscapedPath (u : URL) : GoString :=
  if u.Path = [42] then [42] else escape u.Path encodePath

/-- Model of `URL.String` for a URL whose `Opaque`, `User`, `ForceQuery`, `OmitHost`
and `Fragment` are zero. -/
def String (u : URL) : GoString :=
  let buf : GoString := if u.Scheme ≠ [] then u.Scheme ++ [58] else []
  let buf :=
    if u.Scheme ≠ [] ∨ u.Host ≠ [] then
      let buf := if u.Host ≠ [] ∨ u.Path ≠ [] then buf ++ [47, 47] else buf
      if u.Host ≠ [] then buf ++ escape u.Host encodeHost else buf
    else buf
  let path := EscapedPath u
  let buf := if path ≠ [] ∧ path.head? ≠ some 47 ∧ u.Host ≠ [] then buf ++ [47] else buf
  let buf := if buf.length = 0 ∧ (58 : Byte) ∈ (Cut path 47).1 then buf ++ [46, 47] else buf
  let buf := buf ++ path
  if u.RawQuery ≠ [] then buf ++ [63] ++ u.RawQuery else buf

end URL

/-! ## gookauth.go -/

def host : GoString := str "connect.mail.ru"
def apiHost : GoString := str "www.appsmail.ru"
def apiUrl : GoString := str "platform/api"
def scheme : GoString := str "https"
def accessTokenAction : GoString := str "access_token"
def appIDParameter : GoString := str "client_id"
def appSecretParameter : GoString := str "client_secret"
def methodParameter : GoString := str "method"
def sigParameter : GoString := str "sig"
def responseTypeParameter : GoString := str "response_type"
def responseTypeCode : GoString := str "code"
def redirectParameter : GoString := str "redirect_uri"
def grantTypeParameter : GoString := str "grant_type"
def grantType : GoString := str "authorization_code"
def scopeParameter : GoString := str "scope"
def authAction : GoString := str "oauth/authorize"
def codeParameter : GoString := str "code"
def usersGetAction : GoString := str "users.get"
def uidsParameter : GoString := str "uids"

structure Client where
  ID : GoString
  Secret : GoString
  SecretKey : GoString
  RedirectURL : GoString
  Scope : GoString
deriving DecidableEq

structure User where
  ID : GoString
  Photo : GoString
  FirstName : GoString
  LastName : GoString
  Email : GoString
  Name : GoString
deriving DecidableEq

set_option linter.dupNamespace false in
structure AccessToken where
  AccessToken : GoString
  Expires : Int
  UserID : GoString
deriving DecidableEq

/-- The part of `http.Response` that is read: the bytes of its body. -/
structure Response where
  Body : GoString
deriving DecidableEq

/-- The transport `httpClient`: `Get(url)` answers with a response or with an error. -/
structure mockHTTPClient where
  Get : GoString → Except Error Response

/-- The `encoding/json` collaborator.  `users body` is the state of `answer` and the
error after `json.NewDecoder(body).Decode(&answer)` on `answer := []User{}`;
`token body` is the state of `*token` and the error after `Decode(token)` on
`token = &AccessToken{}`. -/
structure Decoder where
  users : GoString → List User × Option Error
  token : GoString → AccessToken × Option Error

/-- What a call returns to its caller, with the URLs it passed to `httpClient.Get`,
in order. -/
structure Outcome (α : Type) where
  value : α
  err : Option Error
  calls : List GoString

/-- The part of `http.Request` that is read: its URL. -/
structure Request where
  URL : URL

/-- The zero value `User{}`. -/
def User.zero : User := ⟨[], [], [], [], [], []⟩

/-- The zero value `AccessToken{}`. -/
def AccessToken.zero : Gookauth.AccessToken := ⟨[], 0, []⟩

namespace Client

def base (client : Client) (action : GoString) : URL :=
  let u := URL.zero
  let u := { u with Host := host }
  let u := { u with Scheme := scheme }
  let u := { u with Path := action }
  let query := u.Query
  let query := Values.Add query appIDParameter client.ID
  let query := Values.Add query redirectParameter client.RedirectURL
  { u with RawQuery := Values.Encode query }

def DialogURL (client : Client) : URL :=
  let u := client.base authAction
  let query := u.Query
  let query := Values.Add query scopeParameter client.Scope
  let query := Values.Add query responseTypeParameter responseTypeCode
  { u with RawQuery := Values.Encode query }

def accessTokenURL (client : Client) (code : GoString) : URL :=
  let u := client.base accessTokenAction
  let query := u.Query
  let query := Values.Add query appSecretParameter client.Secret
  let query := Values.Add query codeParameter code
  let query := Values.Add query grantTypeParameter grantType
  { u with RawQuery := Values.Encode query }

def GetAccessToken (httpClient : mockHTTPClient) (json : Decoder) (client : Client)
    (req : Request) : Outcome (Option AccessToken) :=
  let query := req.URL.Query
  let code := Values.Get query codeParameter
  if code = [] then ⟨none, some .ErrorBadCode, []⟩
  else
    let requestURL := client.accessTokenURL code
    match httpClient.Get requestURL.String with
    | .error err => ⟨none, some err, [requestURL.String]⟩
    | .ok res =>
      let r := json.token res.Body
      ⟨some r.1, r.2, [requestURL.String]⟩

/-- The buffer `signServer` hashes: `key=value` for the keys in sorted order, then
the secret key. -/
def signBuffer (client : Client) (params : Values) : GoString :=
  let keys := sortStrings (Values.keys params)
  let buffer := keys.foldl (fun buffer key => buffer ++ (key ++ str "=" ++ Values.Get params key)) []
  buffer ++ client.SecretKey

def signServer (client : Client) (params : Values) : GoString :=
  hex (md5.Sum (client.signBuffer params))

/-- The URL that `GetUser` builds and passes to the transport. -/
def getUserURL (client : Client) (uid : GoString) : URL :=
  let u := client.base []
  let u := { u with Host := apiHost }
  let q := u.Query
  let q := Values.Del q appIDParameter
  let q := Values.Del q redirectParameter
  let q := Values.Add q methodParameter usersGetAction
  let q := Values.Add q uidsParameter uid
  let q := Values.Add q sigParameter (client.signServer q)
  { u with RawQuery := Values.Encode q }

def GetUser (httpClient : mockHTTPClient) (json : Decoder) (client : Client)
    (uid : GoString) : Outcome User :=
  let u := client.getUserURL uid
  match httpClient.Get u.String with
  | .error err => ⟨User.zero, some err, [u.String]⟩
  | .ok res =>
    let r := json.users res.Body
    match r.2 with
    | some err => ⟨User.zero, some err, [u.String]⟩
    | none =>
      let answer := r.1
      if answer.length ≠ 1 then ⟨User.zero, some .ErrorBadResponse, [u.String]⟩
      else
        let user := answer.headD User.zero
        let user := { user with Name := user.FirstName ++ str " " ++ user.LastName }
        ⟨user, none, [u.String]⟩

end Client

/-- The client of the repository's tests. -/
def testClient : Client :=
  ⟨str "APP_ID", str "APP_SECRET", str "APP_SERVER_KEY", str "REDIRECT_URI", str "PERMISSIONS"⟩

instance (v : Values) : Decidable (Values.WF v) := inferInstanceAs (Decidable (List.Nodup _))

/-- The parameters of the repository's signing test, in the order the test adds them. -/
def signTestParams : Values :=
  Values.Add (Values.Add (Values.Add (Values.Add [] methodParameter (str "friends.get"))
    (str "app_id") (str "423004")) (str "session_key") (str "be6ef89965d58e56dec21acb9b62bdaa"))
    (str "secure") (str "1")

/-- The same parameters added in another order. -/
def signTestParamsReordered : Values :=
  Values.Add (Values.Add (Values.Add (Values.Add [] (str "secure") (str "1"))
    (str "session_key") (str "be6ef89965d58e56dec21acb9b62bdaa")) methodParameter (str "friends.get"))
    (str "app_id") (str "423004")

/-- The client of the signing test. -/
def signTestClient : Client := { testClient with SecretKey := str "3dad9cbf9baaa0360c0f2ba372d25716" }

/-- The first nine bytes of the two colliding 128-byte messages of Wang and Yu (2004); the tenth byte of both is `=`. -/
def collisionKey : GoString := [
  0xd1, 0x31, 0xdd, 0x02, 0xc5, 0xe6, 0xee, 0xc4, 0x69]

/-- Bytes 10 to 18 of the colliding messages, which they share. -/
def collisionHead : GoString := [
  0x9a, 0x06, 0x98, 0xaf, 0xf9, 0x5c, 0x2f, 0xca, 0xb5]

/-- Bytes 10 to 127 of the first colliding message. -/
def collisionValueA : GoString := [
  0x9a, 0x06, 0x98, 0xaf, 0xf9, 0x5c, 0x2f, 0xca, 0xb5, 0x87, 0x12, 0x46, 0x7e, 0xab, 0x40, 0x04,
  0x58, 0x3e, 0xb8, 0xfb, 0x7f, 0x89, 0x55, 0xad, 0x34, 0x06, 0x09, 0xf4, 0xb3, 0x02, 0x83, 0xe4,
  0x88, 0x83, 0x25, 0x71, 0x41, 0x5a, 0x08, 0x51, 0x25, 0xe8, 0xf7, 0xcd, 0xc9, 0x9f, 0xd9, 0x1d,
  0xbd, 0xf2, 0x80, 0x37, 0x3c, 0x5b, 0xd8, 0x82, 0x3e, 0x31, 0x56, 0x34, 0x8f, 0x5b, 0xae, 0x6d,
  0xac, 0xd4, 0x36, 0xc9, 0x19, 0xc6, 0xdd, 0x53, 0xe2, 0xb4, 0x87, 0xda, 0x03, 0xfd, 0x02, 0x39,
  0x63, 0x06, 0xd2, 0x48, 0xcd, 0xa0, 0xe9, 0x9f, 0x33, 0x42, 0x0f, 0x57, 0x7e, 0xe8, 0xce, 0x54,
  0xb6, 0x70, 0x80, 0xa8, 0x0d, 0x1e, 0xc6, 0x98, 0x21, 0xbc, 0xb6, 0xa8, 0x83, 0x93, 0x96, 0xf9,
  0x65, 0x2b, 0x6f, 0xf7, 0x2a, 0x70]

/-- Bytes 10 to 127 of the second colliding message. -/
def collisionValueB : GoString := [
  0x9a, 0x06, 0x98, 0xaf, 0xf9, 0x5c, 0x2f, 0xca, 0xb5, 0x07, 0x12, 0x46, 0x7e, 0xab, 0x40, 0x04,
  0x58, 0x3e, 0xb8, 0xfb, 0x7f, 0x89, 0x55, 0xad, 0x34, 0x06, 0x09, 0xf4, 0xb3, 0x02, 0x83, 0xe4,
  0x88, 0x83, 0x25, 0xf1, 0x41, 0x5a, 0x08, 0x51, 0x25, 0xe8, 0xf7, 0xcd, 0xc9, 0x9f, 0xd9, 0x1d,
  0xbd, 0x72, 0x80, 0x37, 0x3c, 0x5b, 0xd8, 0x82, 0x3e, 0x31, 0x56, 0x34, 0x8f, 0x5b, 0xae, 0x6d,
  0xac, 0xd4, 0x36, 0xc9, 0x19, 0xc6, 0xdd, 0x53, 0xe2, 0x34, 0x87, 0xda, 0x03, 0xfd, 0x02, 0x39,
  0x63, 0x06, 0xd2, 0x48, 0xcd, 0xa0, 0xe9, 0x9f, 0x33, 0x42, 0x0f, 0x57, 0x7e, 0xe8, 0xce, 0x54,
  0xb6, 0x70, 0x80, 0x28, 0x0d, 0x1e, 0xc6, 0x98, 0x21, 0xbc, 0xb6, 0xa8, 0x83, 0x93, 0x96, 0xf9,
  0x65, 0xab, 0x6f, 0xf7, 0x2a, 0x70]

/-- Bytes 19 to 127 of the first colliding message. -/
def collisionSecretA : GoString := [
  0x87, 0x12, 0x46, 0x7e, 0xab, 0x40, 0x04, 0x58, 0x3e, 0xb8, 0xfb, 0x7f, 0x89, 0x55, 0xad, 0x34,
  0x06, 0x09, 0xf4, 0xb3, 0x02, 0x83, 0xe4, 0x88, 0x83, 0x25, 0x71, 0x41, 0x5a, 0x08, 0x51, 0x25,
  0xe8, 0xf7, 0xcd, 0xc9, 0x9f, 0xd9, 0x1d, 0xbd, 0xf2, 0x80, 0x37, 0x3c, 0x5b, 0xd8, 0x82, 0x3e,
  0x31, 0x56, 0x34, 0x8f, 0x5b, 0xae, 0x6d, 0xac, 0xd4, 0x36, 0xc9, 0x19, 0xc6, 0xdd, 0x53, 0xe2,
  0xb4, 0x87, 0xda, 0x03, 0xfd, 0x02, 0x39, 0x63, 0x06, 0xd2, 0x48, 0xcd, 0xa0, 0xe9, 0x9f, 0x33,
  0x42, 0x0f, 0x57, 0x7e, 0xe8, 0xce, 0x54, 0xb6, 0x70, 0x80, 0xa8, 0x0d, 0x1e, 0xc6, 0x98, 0x21,
  0xbc, 0xb6, 0xa8, 0x83, 0x93, 0x96, 0xf9, 0x65, 0x2b, 0x6f, 0xf7, 0x2a, 0x70]

/-- Bytes 19 to 127 of the second colliding message. -/
def collisionSecretB : GoString := [
  0x07, 0x12, 0x46, 0x7e, 0xab, 0x40, 0x04, 0x58, 0x3e, 0xb8, 0xfb, 0x7f, 0x89, 0x55, 0xad, 0x34,
  0x06, 0x09, 0xf4, 0xb3, 0x02, 0x83, 0xe4, 0x88, 0x83, 0x25, 0xf1, 0x41, 0x5a, 0x08, 0x51, 0x25,
  0xe8, 0xf7, 0xcd, 0xc9, 0x9f, 0xd9, 0x1d, 0xbd, 0x72, 0x80, 0x37, 0x3c, 0x5b, 0xd8, 0x82, 0x3e,
  0x31, 0x56, 0x34, 0x8f, 0x5b, 0xae, 0x6d, 0xac, 0xd4, 0x36, 0xc9, 0x19, 0xc6, 0xdd, 0x53, 0xe2,
  0x34, 0x87, 0xda, 0x03, 0xfd, 0x02, 0x39, 0x63, 0x06, 0xd2, 0x48, 0xcd, 0xa0, 0xe9, 0x9f, 0x33,
  0x42, 0x0f, 0x57, 0x7e, 0xe8, 0xce, 0x54, 0xb6, 0x70, 0x80, 0x28, 0x0d, 0x1e, 0xc6, 0x98, 0x21,
  0xbc, 0xb6, 0xa8, 0x83, 0x93, 0x96, 0xf9, 0x65, 0xab, 0x6f, 0xf7, 0x2a, 0x70]

/-! ## Auxiliary definitions for the statements about URLs and calls -/

/-- An encoded pair `QueryEscape(key)=QueryEscape(value)`. -/
def encodePair (p : GoString × GoString) : GoString := QueryEscape p.1 ++ [61] ++ QueryEscape p.2

/-- The pieces joined by `&`. -/
def joinAmp : List GoString → GoString
  | [] => []
  | [p] => p
  | p :: q :: rest => p ++ [38] ++ joinAmp (q :: rest)

/-- The `(key, value)` pairs of a map in the order `Encode` writes them. -/
def Values.pairs (v : Values) : List (GoString × GoString) :=
  (sortStrings (Values.keys v)).flatMap fun k => (Values.lookup v k).map fun x => (k, x)

/-- What `Encode` does to its buffer for one more piece. -/
def encodeStep (buf piece : GoString) : GoString :=
  (if buf.length > 0 then buf ++ [38] else buf) ++ piece

/-- A transport that answers every GET with a response of the given body. -/
def bodyClient (body : GoString) : mockHTTPClient := ⟨fun _ => .ok ⟨body⟩⟩

/-- A decoder that reads the given users and the given token out of every body,
without error. -/
def fixedDecoder (users : List User) (token : Gookauth.AccessToken) : Decoder :=
  ⟨fun _ => (users, none), fun _ => (token, none)⟩

/-- The user object of the repository's tests. -/
def testUser : User :=
  ⟨str "15410773191172635989", str "http://avt.appsmail.ru/mail/emaslov/_avatar",
   str "Евгений", str "Маслов", str "emaslov@mail.ru", []⟩

/-- The redirect request of the "Bad url" test: `http://REDIRECT_URI?error=kek`. -/
def badUrlRequest : Request := ⟨⟨str "http", str "REDIRECT_URI", [], str "error=kek"⟩⟩

/-- A redirect request whose first `code` value is empty. -/
def emptyCodeRequest : Request := ⟨⟨str "http", str "REDIRECT_URI", [], str "code=&code=abc"⟩⟩

/-! ## encoding/json -/

instance {ε α : Type} [DecidableEq ε] [DecidableEq α] : DecidableEq (Except ε α) := fun a b =>
  match a, b with
  | .ok x, .ok y => if h : x = y then isTrue (by rw [h]) else isFalse (fun e => h (by injection e))
  | .error x, .error y =>
    if h : x = y then isTrue (by rw [h]) else isFalse (fun e => h (by injection e))
  | .ok _, .error _ => isFalse (fun e => by injection e)
  | .error _, .ok _ => isFalse (fun e => by injection e)

namespace json

mutual
/-- A JSON value; a number keeps its literal text, a string is already unquoted. -/
inductive Value where
  | null
  | bool (b : Bool)
  | number (lit : GoString)
  | string (s : GoString)
  | array (elems : Elems)
  | object (members : Members)
deriving DecidableEq
/-- The elements of a JSON array, in order. -/
inductive Elems where
  | nil
  | cons (v : Value) (rest : Elems)
deriving DecidableEq
/-- The members of a JSON object, in order. -/
inductive Members where
  | nil
  | cons (key : GoString) (v : Value) (rest : Members)
deriving DecidableEq
end

def Elems.toList : Elems → List Value
  | .nil => []
  | .cons v rest => v :: Elems.toList rest

def Members.toList : Members → List (GoString × Value)
  | .nil => []
  | .cons key v rest => (key, v) :: Members.toList rest

/-- The error of a body that is empty or blank (`io.EOF`). -/
def errEOF : Error := .other (str "EOF")

/-- The error of a body that is not JSON (`*json.SyntaxError`, or
`io.ErrUnexpectedEOF` when the body stops inside a value). -/
def errSyntax : Error := .other (str "json: invalid character or unexpected end of JSON input")

/-- The error of a JSON value of the wrong kind for its Go target
(`*json.UnmarshalTypeError`). -/
def errType : Error := .other (str "json: cannot unmarshal value into Go value")

/-- JSON white space: space, tab, carriage return, line feed. -/
def isSpace (c : Byte) : Bool := c = 32 || c = 9 || c = 13 || c = 10

def skipSpace : GoString → GoString
  | [] => []
  | c :: rest => if isSpace c then skipSpace rest else c :: rest

def isDigit (c : Byte) : Bool := 48 ≤ c.val && c.val ≤ 57

/-- The leading decimal digits of `s`, and what follows them. -/
def digits : GoString → GoString × GoString
  | [] => ([], [])
  | c :: rest =>
    if isDigit c then
      let r := digits rest
      (c :: r.1, r.2)
    else ([], c :: rest)

/-- The scanner on a number: `-? (0 | [1-9][0-9]*) (. [0-9]+)? ([eE] [+-]? [0-9]+)?`.
Returns the literal and the rest. -/
def scanNumber (s : GoString) : Option (GoString × GoString) :=
  let sign : GoString × GoString :=
    match s with
    | c :: t => if c = 45 then ([45], t) else ([], s)
    | [] => ([], s)
  let int : Option (GoString × GoString) :=
    match sign.2 with
    | [] => none
    | d :: t =>
      if d = 48 then some ([48], t)
      else if isDigit d then
        let r := digits t
        some (d :: r.1, r.2)
      else none
  match int with
  | none => none
  | some (ip, r1) =>
    let frac : Option (GoString × GoString) :=
      match r1 with
      | c :: t =>
        if c = 46 then
          let r := digits t
          if r.1 = [] then none else some (46 :: r.1, r.2)
        else some ([], r1)
      | [] => some ([], r1)
    match frac with
    | none => none
    | some (fp, r2) =>
      let exp : Option (GoString × GoString) :=
        match r2 with
        | c :: t =>
          if c = 101 ∨ c = 69 then
            let sg : GoString × GoString :=
              match t with
              | x :: u => if x = 43 ∨ x = 45 then ([x], u) else ([], t)
              | [] => ([], t)
            let r := digits sg.2
            if r.1 = [] then none else some (c :: sg.1 ++ r.1, r.2)
          else some ([], r2)
        | [] => some ([], r2)
      match exp with
      | none => none
      | some (ep, r3) => some (sign.1 ++ ip ++ fp ++ ep, r3)

/-- The scanner inside a string, after the opening quote: up to the closing quote,
with every backslash followed by one of `"\/bfnrt` or by `u` and four hex digits, and
no byte below 0x20.  Returns the raw contents and what follows the closing quote. -/
def scanString : Nat → GoString → Option (GoString × GoString)
  | 0, _ => none
  | n + 1, s =>
    match s with
    | [] => none
    | c :: rest =>
      if c = 34 then some ([], rest)
      else if c = 92 then
        match rest with
        | [] => none
        | e :: rest2 =>
          if e ∈ ([34, 92, 47, 98, 102, 110, 114, 116] : List Byte) then
            (scanString n rest2).map fun r => (c :: e :: r.1, r.2)
          else if e = 117 then
            if (rest2.take 4).length = 4 ∧ (rest2.take 4).all ishex then
              (scanString n (rest2.drop 4)).map fun r => (c :: e :: rest2.take 4 ++ r.1, r.2)
            else none
          else none
      else if c.val < 32 then none
      else (scanString n rest).map fun r => (c :: r.1, r.2)

/-- Model of `utf8.EncodeRune`. -/
def encodeRune (n : Nat) : GoString :=
  if n < 0x80 then [Fin.ofNat n]
  else if n < 0x800 then [Fin.ofNat (0xC0 + n / 64), Fin.ofNat (0x80 + n % 64)]
  else if (0xD800 ≤ n ∧ n ≤ 0xDFFF) ∨ 0x10FFFF < n then [0xEF, 0xBF, 0xBD]
  else if n < 0x10000 then
    [Fin.ofNat (0xE0 + n / 4096), Fin.ofNat (0x80 + n / 64 % 64), Fin.ofNat (0x80 + n % 64)]
  else
    [Fin.ofNat (0xF0 + n / 262144), Fin.ofNat (0x80 + n / 4096 % 64),
     Fin.ofNat (0x80 + n / 64 % 64), Fin.ofNat (0x80 + n % 64)]

/-- Continuation byte `c` within `lo..hi`. -/
def inRange (lo hi : Nat) (c : Byte) : Bool := lo ≤ c.val && c.val ≤ hi

/-- Model of `utf8.DecodeRune`: the first rune of `s` and its width; an invalid or
truncated encoding gives U+FFFD and width 1. -/
def decodeRune (s : GoString) : Nat × Nat :=
  match s with
  | [] => (0xFFFD, 0)
  | b0 :: t =>
    let c0 := b0.val
    if c0 < 0x80 then (c0, 1)
    else if 0xC2 ≤ c0 ∧ c0 ≤ 0xDF then
      match t with
      | b1 :: _ =>
        if inRange 0x80 0xBF b1 then (c0 % 32 * 64 + b1.val % 64, 2) else (0xFFFD, 1)
      | _ => (0xFFFD, 1)
    else if 0xE0 ≤ c0 ∧ c0 ≤ 0xEF then
      match t with
      | b1 :: b2 :: _ =>
        if inRange (if c0 = 0xE0 then 0xA0 else 0x80) (if c0 = 0xED then 0x9F else 0xBF) b1
            && inRange 0x80 0xBF b2 then
          ((c0 % 16 * 64 + b1.val % 64) * 64 + b2.val % 64, 3)
        else (0xFFFD, 1)
      | _ => (0xFFFD, 1)
    else if 0xF0 ≤ c0 ∧ c0 ≤ 0xF4 then
      match t with
      | b1 :: b2 :: b3 :: _ =>
        if inRange (if c0 = 0xF0 then 0x90 else 0x80) (if c0 = 0xF4 then 0x8F else 0xBF) b1
            && inRange 0x80 0xBF b2 && inRange 0x80 0xBF b3 then
          (((c0 % 8 * 64 + b1.val % 64) * 64 + b2.val % 64) * 64 + b3.val % 64, 4)
        else (0xFFFD, 1)
      | _ => (0xFFFD, 1)
    else (0xFFFD, 1)

/-- Model of `getu4`: the value of a leading `\uXXXX`, if `s` starts with one. -/
def getu4 (s : GoString) : Option Nat :=
  match s with
  | a :: b :: h1 :: h2 :: h3 :: h4 :: _ =>
    if a = 92 ∧ b = 117 ∧ ishex h1 ∧ ishex h2 ∧ ishex h3 ∧ ishex h4 then
      some (((unhex h1 * 16 + unhex h2) * 16 + unhex h3) * 16 + unhex h4)
    else none
  | _ => none

/-- Model of `unquoteBytes` on the raw contents of a scanned string: escapes are
replaced, a surrogate pair of `\u` escapes gives one rune, a lone surrogate and every
byte sequence that is not UTF-8 give U+FFFD. -/
def unquote : Nat → GoString → GoString
  | 0, _ => []
  | n + 1, s =>
    match s with
    | [] => []
    | c :: rest =>
      if c = 92 then
        match rest with
        | [] => []
        | e :: rest2 =>
          if e = 117 then
            match getu4 s with
            | none => []
            | some rr =>
              if 0xD800 ≤ rr ∧ rr < 0xE000 then
                match getu4 (s.drop 6) with
                | some rr1 =>
                  if rr < 0xDC00 ∧ 0xDC00 ≤ rr1 ∧ rr1 < 0xE000 then
                    encodeRune ((rr - 0xD800) * 1024 + (rr1 - 0xDC00) + 0x10000)
                      ++ unquote n (s.drop 12)
                  else encodeRune 0xFFFD ++ unquote n (s.drop 6)
                | none => encodeRune 0xFFFD ++ unquote n (s.drop 6)
              else encodeRune rr ++ unquote n (s.drop 6)
          else
            let d : Byte :=
              if e = 98 then 8 else if e = 102 then 12 else if e = 110 then 10
              else if e = 114 then 13 else if e = 116 then 9 else e
            d :: unquote n rest2
      else if c.val < 0x80 then c :: unquote n rest
      else
        let r := decodeRune s
        encodeRune r.1 ++ unquote n (s.drop r.2)

/-- A scanned string, unquoted. -/
def parseString (s : GoString) : Option (GoString × GoString) :=
  (scanString (s.length + 1) s).map fun r => (unquote (r.1.length + 1) r.1, r.2)

/-- The elements of an array after the first `[`, each read by `pv`, separated by
commas, up to the closing bracket. -/
def parseElemsWith (pv : GoString → Option (Value × GoString)) :
    Nat → GoString → Option (Elems × GoString)
  | 0, _ => none
  | n + 1, s =>
    match pv s with
    | none => none
    | some (v, r) =>
      match skipSpace r with
      | c :: r2 =>
        if c = 44 then (parseElemsWith pv n r2).map fun e => (Elems.cons v e.1, e.2)
        else if c = 93 then some (Elems.cons v Elems.nil, r2)
        else none
      | [] => none

/-- The members of an object after the first `{`: a string key, a colon, a value read
by `pv`, separated by commas, up to the closing brace. -/
def parseMembersWith (pv : GoString → Option (Value × GoString)) :
    Nat → GoString → Option (Members × GoString)
  | 0, _ => none
  | n + 1, s =>
    match skipSpace s with
    | q :: t =>
      if q = 34 then
        match parseString t with
        | none => none
        | some (key, r) =>
          match skipSpace r with
          | c :: r2 =>
            if c = 58 then
              match pv r2 with
              | none => none
              | some (v, r3) =>
                match skipSpace r3 with
                | d :: r4 =>
                  if d = 44 then
                    (parseMembersWith pv n r4).map fun m => (Members.cons key v m.1, m.2)
                  else if d = 125 then some (Members.cons key v Members.nil, r4)
                  else none
                | [] => none
            else none
          | [] => none
      else none
    | [] => none

/-- One JSON value at the start of `s`, after optional white space, and what follows
it.  The first argument is the nesting budget: a value may lie inside at most 10000
arrays and objects, as in `encoding/json`. -/
def parseValue : Nat → GoString → Option (Value × GoString)
  | 0, _ => none
  | depth + 1, s =>
    match skipSpace s with
    | [] => none
    | c :: t =>
      if c = 123 then
        if depth = 0 then none
        else
          match skipSpace t with
          | 125 :: r => some (Value.object Members.nil, r)
          | _ =>
            (parseMembersWith (parseValue depth) (t.length + 1) t).map fun m =>
              (Value.object m.1, m.2)
      else if c = 91 then
        if depth = 0 then none
        else
          match skipSpace t with
          | 93 :: r => some (Value.array Elems.nil, r)
          | _ =>
            (parseElemsWith (parseValue depth) (t.length + 1) t).map fun e =>
              (Value.array e.1, e.2)
      else if c = 34 then (parseString t).map fun r => (Value.string r.1, r.2)
      else if c = 45 ∨ isDigit c then (scanNumber (c :: t)).map fun r => (Value.number r.1, r.2)
      else if (c :: t).take 4 = str "true" then some (Value.bool true, t.drop 3)
      else if (c :: t).take 5 = str "false" then some (Value.bool false, t.drop 4)
      else if (c :: t).take 4 = str "null" then some (Value.null, t.drop 3)
      else none

/-- Model of the first `Decode` of a `json.Decoder` up to the JSON value: the first
value of the body is read, what follows it is left unread. -/
def readValue (body : GoString) : Except Error Value :=
  match skipSpace body with
  | [] => .error errEOF
  | s =>
    match parseValue 10001 s with
    | none => .error errSyntax
    | some (v, _) => .ok v

/-- Model of `strconv.ParseInt(s, 10, 64)`: an optional sign, decimal digits only,
and a value that fits 64 bits. -/
def ParseInt (s : GoString) : Option Int :=
  let r : Bool × GoString :=
    match s with
    | c :: t => if c = 45 then (true, t) else if c = 43 then (false, t) else (false, s)
    | [] => (false, s)
  if r.2 = [] ∨ ¬ r.2.all isDigit then none
  else
    let n : Nat := r.2.foldl (fun acc d => 10 * acc + (d.val - 48)) 0
    if r.1 then (if n ≤ 9223372036854775808 then some (-(n : Int)) else none)
    else (if n < 9223372036854775808 then some (n : Int) else none)

/-- The simple case folding of a name, as far as it matters for names in ASCII:
ASCII letters go to upper case, and the two other runes that fold to an ASCII
letter, U+017F (long s) and U+212A (Kelvin sign), go to `S` and `K`. -/
def foldName : Nat → GoString → GoString
  | 0, _ => []
  | n + 1, s =>
    match s with
    | [] => []
    | c :: rest =>
      if s.take 2 = [0xC5, 0xBF] then 83 :: foldName n (s.drop 2)
      else if s.take 3 = [0xE2, 0x84, 0xAA] then 75 :: foldName n (s.drop 3)
      else (if 97 ≤ c.val ∧ c.val ≤ 122 then Fin.ofNat (c.val - 32) else c) :: foldName n rest

/-- Whether a key matches a field name when the exact match has failed. -/
def equalFold (name key : GoString) : Bool :=
  foldName name.length name = foldName key.length key

/-- Position of the first element that satisfies `p`. -/
def indexWhere (p : GoString → Bool) : List GoString → Option Nat
  | [] => none
  | x :: xs => if p x then some 0 else (indexWhere p xs).map (· + 1)

/-- The field a key of an object addresses, among the JSON names of the fields of a
struct: the field of exactly this name, else the first field whose name matches under
case folding, else none (the member is then skipped). -/
def fieldIndex (names : List GoString) (key : GoString) : Option Nat :=
  match indexWhere (fun name => name = key) names with
  | some i => some i
  | none => indexWhere (fun name => equalFold name key) names

/-- Storing a JSON value in a Go `string`: a string is stored, `null` leaves the
field as it is, anything else is a type error and leaves the field as it is. -/
def storeString (v : Value) (old : GoString) : GoString × Bool :=
  match v with
  | .string s => (s, false)
  | .null => (old, false)
  | _ => (old, true)

/-- Storing a JSON value in a Go `int` (64 bits): a number whose literal `ParseInt`
accepts is stored, `null` leaves the field as it is, anything else is a type error
and leaves the field as it is. -/
def storeInt (v : Value) (old : Int) : Int × Bool :=
  match v with
  | .number lit =>
    match ParseInt lit with
    | some n => (n, false)
    | none => (old, true)
  | .null => (old, false)
  | _ => (old, true)

/-- The JSON names of the fields of `AccessToken`, from its struct tags. -/
def tokenNames : List GoString := [str "access_token", str "expires_in", str "x_mailru_vid"]

/-- The JSON names of the fields of `User`: its struct tags, and the Go name of the
untagged field `Name`. -/
def userNames : List GoString :=
  [str "uid", str "pic", str "first_name", str "last_name", str "email", str "Name"]

/-- One member of an object decoded into an `AccessToken`; the flag records a type
error. -/
def tokenMember (st : Gookauth.AccessToken × Bool) (m : GoString × Value) :
    Gookauth.AccessToken × Bool :=
  match fieldIndex tokenNames m.1 with
  | some 0 =>
    let r := storeString m.2 st.1.AccessToken
    ({ st.1 with AccessToken := r.1 }, st.2 || r.2)
  | some 1 =>
    let r := storeInt m.2 st.1.Expires
    ({ st.1 with Expires := r.1 }, st.2 || r.2)
  | some 2 =>
    let r := storeString m.2 st.1.UserID
    ({ st.1 with UserID := r.1 }, st.2 || r.2)
  | _ => st

/-- One member of an object decoded into a `User`. -/
def userMember (st : User × Bool) (m : GoString × Value) : User × Bool :=
  match fieldIndex userNames m.1 with
  | some 0 =>
    let r := storeString m.2 st.1.ID
    ({ st.1 with ID := r.1 }, st.2 || r.2)
  | some 1 =>
    let r := storeString m.2 st.1.Photo
    ({ st.1 with Photo := r.1 }, st.2 || r.2)
  | some 2 =>
    let r := storeString m.2 st.1.FirstName
    ({ st.1 with FirstName := r.1 }, st.2 || r.2)
  | some 3 =>
    let r := storeString m.2 st.1.LastName
    ({ st.1 with LastName := r.1 }, st.2 || r.2)
  | some 4 =>
    let r := storeString m.2 st.1.Email
    ({ st.1 with Email := r.1 }, st.2 || r.2)
  | some 5 =>
    let r := storeString m.2 st.1.Name
    ({ st.1 with Name := r.1 }, st.2 || r.2)
  | _ => st

/-- One element of an array decoded into the next `User` of the slice: an object
fills a zero `User` member by member, `null` leaves it zero, any other value is a type
error and leaves it zero. -/
def userElem (v : Value) : User × Bool :=
  match v with
  | .object ms => (Members.toList ms).foldl userMember (User.zero, false)
  | .null => (User.zero, false)
  | _ => (User.zero, true)

/-- Model of `json.NewDecoder(body).Decode(token)` on `token = &AccessToken{}`: the
state of `*token` afterwards and the error.  A body that is not JSON leaves the token
untouched; a type error is reported once the whole value has been decoded, with
every other field stored. -/
def decodeToken (body : GoString) : Gookauth.AccessToken × Option Error :=
  match readValue body with
  | .error e => (AccessToken.zero, some e)
  | .ok (.object ms) =>
    let r := (Members.toList ms).foldl tokenMember (AccessToken.zero, false)
    (r.1, if r.2 then some errType else none)
  | .ok .null => (AccessToken.zero, none)
  | .ok _ => (AccessToken.zero, some errType)

/-- Model of `json.NewDecoder(body).Decode(&answer)` on `answer := []User{}`: the state
of `answer` afterwards and the error. -/
def decodeUsers (body : GoString) : List User × Option Error :=
  match readValue body with
  | .error e => ([], some e)
  | .ok (.array es) =>
    let rs := (Elems.toList es).map userElem
    (rs.map Prod.fst, if rs.any Prod.snd then some errType else none)
  | .ok .null => ([], none)
  | .ok _ => ([], some errType)

end json

/-- The decoder of `encoding/json`. -/
def encodingJSON : Decoder := ⟨json.decodeUsers, json.decodeToken⟩

/-- The response body of the token test. -/
def tokenBody : GoString :=
  str ("\x7b\"access_token\":\"533bacf01e11f55b536a565b57531ac114461ae8736d6506a3\", " ++
    "\"expires_in\":43200, \"x_mailru_vid\":\"6492\"\x7d")

/-- The response body of the "Server error" test. -/
def serverErrorBody : GoString := str "\x7b\"response\": \x7b\"error\": \"500\"\x7d\x7d"

/-- The response body of the "Test getName" test. -/
def userBody : GoString :=
  str ("[\x7b\n    \"uid\": \"15410773191172635989\",\n    \"first_name\": \"Евгений\",\n" ++
    "    \"last_name\": \"Маслов\",\n    \"nick\": \"maslov\",\n" ++
    "    \"email\": \"emaslov@mail.ru\",\n    \"sex\": 0,\n" ++
    "    \"birthday\": \"15.02.1980\", \n    \"has_pic\": 1,\n" ++
    "    \"pic\": \"http://avt.appsmail.ru/mail/emaslov/_avatar\"\n   \x7d\n]\n\t\t")

/-- The members of the body of the token test. -/
def tokenMembers : json.Members :=
  .cons (str "access_token") (.string (str "533bacf01e11f55b536a565b57531ac114461ae8736d6506a3"))
    (.cons (str "expires_in") (.number (str "43200"))
      (.cons (str "x_mailru_vid") (.string (str "6492")) .nil))

/-- A token body whose `expires_in` is a string: the other fields decode. -/
def partialTokenBody : GoString :=
  str "\x7b\"access_token\":\"T\", \"expires_in\":\"soon\", \"x_mailru_vid\":\"6492\"\x7d"

/-- A token body with the three members and a fourth one, whose key `Access_Token`
differs from `access_token` in case only. -/
def foldedKeyTokenBody : GoString :=
  str ("\x7b\"access_token\":\"T\", \"expires_in\":43200, \"x_mailru_vid\":\"6492\", " ++
    "\"Access_Token\":\"other\"\x7d")

/-- The members of `foldedKeyTokenBody`. -/
def foldedKeyTokenMembers : json.Members :=
  .cons (str "access_token") (.string (str "T"))
    (.cons (str "expires_in") (.number (str "43200"))
      (.cons (str "x_mailru_vid") (.string (str "6492"))
        (.cons (str "Access_Token") (.string (str "other")) .nil)))

/-- A token body whose `expires_in` is the integer 1000 written with an exponent. -/
def exponentTokenBody : GoString :=
  str "\x7b\"access_token\":\"T\", \"expires_in\":1e3, \"x_mailru_vid\":\"6492\"\x7d"

/-- The members of `exponentTokenBody`. -/
def exponentTokenMembers : json.Members :=
  .cons (str "access_token") (.string (str "T"))
    (.cons (str "expires_in") (.number (str "1e3"))
      (.cons (str "x_mailru_vid") (.string (str "6492")) .nil))

/-- A token body whose `expires_in` is the integer 2^63, one more than a 64-bit `int`
holds. -/
def largeTokenBody : GoString :=
  str ("\x7b\"access_token\":\"T\", \"expires_in\":9223372036854775808, " ++
    "\"x_mailru_vid\":\"6492\"\x7d")

/-- The members of `largeTokenBody`. -/
def largeTokenMembers : json.Members :=
  .cons (str "access_token") (.string (str "T"))
    (.cons (str "expires_in") (.number (str "9223372036854775808"))
      (.cons (str "x_mailru_vid") (.string (str "6492")) .nil))

/-- The `MockClient` of the tests with a nil response: every GET fails with
`http.ErrShortBody`. -/
def nilClient : mockHTTPClient := ⟨fun _ => .error (.other (str "entity body too short"))⟩

/-- The redirect request of the token test. -/
def codeRequest : Request :=
  ⟨⟨str "http", str "REDIRECT_URI", [],
    str "code=7a6fa4dff77a228eeda56603b8f53806c883f011c40b72630bb50df056f6479e52a"⟩⟩

/-- A client whose every field holds separators, escapes, a space, non-ASCII text and
bytes that are not UTF-8. -/
def oddClient : Client :=
  ⟨str "a&b=c;d e%+#я" ++ [0xff, 0x00], str "s&e=c;r e%t+#я" ++ [0xc0, 0x80], str "key",
   str "http://x/y?z=1&w=2#f;g h%2B+", str "a b,c+d%20" ++ [0xfe]⟩

/-! ## The order of `sort.Strings` -/

theorem strLE_refl (a : GoString) : strLE a a = true := by
  induction a with
  | nil => rfl
  | cons x xs ih => simp [strLE, ih]

theorem strLE_total (a b : GoString) : strLE a b = true ∨ strLE b a = true := by
  induction a generalizing b with
  | nil => simp [strLE]
  | cons x xs ih =>
    cases b with
    | nil => simp [strLE]
    | cons y ys =>
      simp only [strLE]
      rcases Nat.lt_trichotomy x.val y.val with h | h | h
      · simp [h]
      · simp [h]; exact ih ys
      · simp [h]

theorem strLE_antisymm (a b : GoString) (h1 : strLE a b = true) (h2 : strLE b a = true) :
    a = b := by
  induction a generalizing b with
  | nil => cases b with
    | nil => rfl
    | cons y ys => simp [strLE] at h2
  | cons x xs ih =>
    cases b with
    | nil => simp [strLE] at h1
    | cons y ys =>
      simp only [strLE] at h1 h2
      rcases Nat.lt_trichotomy x.val y.val with h | h | h
      · have h3 : ¬ y.val < x.val := by omega
        simp [h, h3] at h2
      · have hxy : x = y := Fin.ext h
        subst hxy
        simp at h1 h2
        rw [ih ys h1 h2]
      · have h3 : ¬ x.val < y.val := by omega
        simp [h, h3] at h1

theorem strLE_trans (a b c : GoString) (h1 : strLE a b = true) (h2 : strLE b c = true) :
    strLE a c = true := by
  induction a generalizing b c with
  | nil => simp [strLE]
  | cons x xs ih =>
    cases b with
    | nil => simp [strLE] at h1
    | cons y ys =>
      cases c with
      | nil => simp [strLE] at h2
      | cons z zs =>
        simp only [strLE] at h1 h2 ⊢
        by_cases hxy : x.val < y.val
        · by_cases hyz : y.val < z.val
          · have : x.val < z.val := by omega
            simp [this]
          · by_cases hzy : z.val < y.val
            · simp [hyz, hzy] at h2
            · have : x.val < z.val := by omega
              simp [this]
        · by_cases hyx : y.val < x.val
          · simp [hxy, hyx] at h1
          · simp only [hxy, hyx, if_false] at h1
            by_cases hyz : y.val < z.val
            · have : x.val < z.val := by omega
              simp [this]
            · by_cases hzy : z.val < y.val
              · simp [hyz, hzy] at h2
              · simp only [hyz, hzy, if_false] at h2
                have e1 : ¬ x.val < z.val := by omega
                have e2 : ¬ z.val < x.val := by omega
                simp only [e1, e2, if_false]
                exact ih ys zs h1 h2

instance : IsTotal GoString StrLE := ⟨strLE_total⟩

instance : IsTrans GoString StrLE := ⟨strLE_trans⟩

instance : IsAntisymm GoString StrLE := ⟨strLE_antisymm⟩

theorem sortStrings_perm (keys : List GoString) : (sortStrings keys).Perm keys :=
  List.perm_insertionSort StrLE keys

theorem sortStrings_sorted (keys : List GoString) : (sortStrings keys).Sorted StrLE :=
  List.sorted_insertionSort StrLE keys

/-- The result of `sort.Strings` is the one ascending arrangement of the keys. -/
theorem sortStrings_unique (keys names : List GoString) (hperm : names.Perm keys)
    (hsorted : names.Sorted StrLE) : sortStrings keys = names :=
  List.eq_of_perm_of_sorted ((sortStrings_perm keys).trans hperm.symm)
    (sortStrings_sorted keys) hsorted

theorem sortStrings_congr (k1 k2 : List GoString) (h : k1.Perm k2) :
    sortStrings k1 = sortStrings k2 :=
  sortStrings_unique k1 (sortStrings k2) ((sortStrings_perm k2).trans h.symm)
    (sortStrings_sorted k2)

/-! ## Facts about `url.Values` -/

namespace Values

theorem lookup_of_not_mem (v : Values) (key : GoString) (h : key ∉ keys v) :
    lookup v key = [] := by
  induction v with
  | nil => rfl
  | cons e rest ih =>
    obtain ⟨k, vs⟩ := e
    simp only [keys, List.map_cons, List.mem_cons, not_or] at h
    have hk : ¬ k = key := fun e => h.1 e.symm
    simp only [lookup, hk, if_false]
    exact ih h.2

theorem lookup_of_mem (v : Values) (hv : WF v) (key : GoString) (vs : List GoString)
    (h : (key, vs) ∈ v) : lookup v key = vs := by
  induction v with
  | nil => simp at h
  | cons e rest ih =>
    obtain ⟨k, old⟩ := e
    simp only [WF, keys, List.map_cons, List.nodup_cons] at hv
    rcases List.mem_cons.mp h with h1 | h1
    · injection h1 with e1 e2
      subst e1; subst e2
      simp [lookup]
    · have hk : ¬ k = key := by
        intro e
        subst e
        exact hv.1 (List.mem_map_of_mem Prod.fst h1)
      simp only [lookup, hk, if_false]
      exact ih hv.2 h1

theorem lookup_perm (p q : Values) (hp : WF p) (h : p.Perm q) (key : GoString) :
    lookup p key = lookup q key := by
  have hq : WF q := (List.Perm.nodup_iff (h.map Prod.fst)).mp hp
  by_cases hk : key ∈ keys p
  · obtain ⟨e, he, hek⟩ := List.mem_map.mp hk
    obtain ⟨k, vs⟩ := e
    simp only at hek
    subst hek
    rw [lookup_of_mem p hp k vs he, lookup_of_mem q hq k vs (h.mem_iff.mp he)]
  · have hk2 : key ∉ keys q := fun hm => hk ((h.map Prod.fst).mem_iff.mpr hm)
    rw [lookup_of_not_mem p key hk, lookup_of_not_mem q key hk2]

end Values

/-! ## Signing -/

theorem foldl_append_flatMap (f : GoString → GoString) (l : List GoString) (acc : GoString) :
    l.foldl (fun buffer key => buffer ++ f key) acc = acc ++ l.flatMap f := by
  induction l generalizing acc with
  | nil => simp
  | cons x xs ih => simp [ih, List.append_assoc]

theorem signBuffer_eq (client : Client) (params : Values) :
    client.signBuffer params =
      ((sortStrings (Values.keys params)).flatMap fun key =>
        key ++ str "=" ++ Values.Get params key) ++ client.SecretKey := by
  simp only [Client.signBuffer]
  rw [foldl_append_flatMap (fun key => key ++ str "=" ++ Values.Get params key)]
  simp

/-- C1. `signServer` returns the lowercase hexadecimal MD5 digest of the canonical
buffer: for the parameter names arranged in byte-wise ascending order, the
concatenation of name, `=` and the value `Get` gives for the name, with nothing
between the pairs, followed by `SecretKey`. -/
theorem signServer_canonical (client : Client) (params : Values) (names : List GoString)
    (hperm : names.Perm (Values.keys params)) (hsorted : names.Sorted StrLE) :
    client.signServer params =
      hex (md5.Sum ((names.flatMap fun name => name ++ str "=" ++ Values.Get params name)
        ++ client.SecretKey)) := by
  unfold Client.signServer
  rw [signBuffer_eq, sortStrings_unique (Values.keys params) names hperm hsorted]

/-- C1, the signing test of the repository: the four parameters and the secret of the
test give the signature the test expects. -/
theorem signServer_canonical_witness :
    [str "app_id", str "method", str "secure", str "session_key"].Perm (Values.keys signTestParams)
    ∧ [str "app_id", str "method", str "secure", str "session_key"].Sorted StrLE
    ∧ signTestClient.signServer signTestParams
        = hex (md5.Sum (str ("app_id=423004method=friends.getsecure=1" ++
            "session_key=be6ef89965d58e56dec21acb9b62bdaa3dad9cbf9baaa0360c0f2ba372d25716")))
    ∧ signTestClient.signServer signTestParams = str "4a05af66f80da18b308fa7e536912bae" :=
  ⟨by decide!, by decide!,
   (signServer_canonical signTestClient signTestParams
      [str "app_id", str "method", str "secure", str "session_key"]
      (by decide!) (by decide!)).trans (by decide!),
   (signServer_canonical signTestClient signTestParams
      [str "app_id", str "method", str "secure", str "session_key"]
      (by decide!) (by decide!)).trans (by decide!)⟩

theorem Values.Get_perm (p q : Values) (hp : Values.WF p) (h : p.Perm q) (key : GoString) :
    Values.Get p key = Values.Get q key := by
  simp only [Values.Get, Values.lookup_perm p q hp h key]

/-- C2. Two listings of the same parameter map (each name once, the entries in any
order) get the same signature from `signServer`, whatever the secret. -/
theorem signServer_perm (client : Client) (p q : Values) (hp : Values.WF p) (h : p.Perm q) :
    client.signServer p = client.signServer q := by
  unfold Client.signServer
  rw [signBuffer_eq, signBuffer_eq]
  have hk : sortStrings (Values.keys p) = sortStrings (Values.keys q) :=
    sortStrings_congr _ _ (h.map Prod.fst)
  have hg : (fun key => key ++ str "=" ++ Values.Get p key)
      = (fun key => key ++ str "=" ++ Values.Get q key) := by
    funext key
    rw [Values.Get_perm p q hp h key]
  rw [hk, hg]

/-- C2 at the parameters of the signing test, added in two different orders. -/
theorem signServer_perm_witness :
    Values.WF signTestParams ∧ signTestParams.Perm signTestParamsReordered
    ∧ signTestParams ≠ signTestParamsReordered
    ∧ signTestClient.signServer signTestParams = signTestClient.signServer signTestParamsReordered :=
  ⟨by decide!, by decide!, by decide!,
   signServer_perm signTestClient signTestParams signTestParamsReordered (by decide!) (by decide!)⟩

/-! ## What a change of value or secret does to the signature -/

namespace Values

theorem keys_store_of_mem (v : Values) (key : GoString) (vs : List GoString)
    (h : key ∈ keys v) : keys (store v key vs) = keys v := by
  induction v with
  | nil => simp [keys] at h
  | cons e rest ih =>
    obtain ⟨k, old⟩ := e
    by_cases hk : k = key
    · simp [store, hk, keys]
    · have hm : key ∈ keys rest := by
        simp only [keys, List.map_cons, List.mem_cons] at h
        rcases h with h | h
        · exact absurd h.symm hk
        · exact h
      have ih2 := ih hm
      simp only [keys] at ih2
      simp [store, hk, keys, ih2]

theorem lookup_store_same (v : Values) (key : GoString) (vs : List GoString) :
    lookup (store v key vs) key = vs := by
  induction v with
  | nil => simp [store, lookup]
  | cons e rest ih =>
    obtain ⟨k, old⟩ := e
    by_cases hk : k = key
    · simp [store, hk, lookup]
    · simp [store, hk, lookup, ih]

theorem lookup_store_other (v : Values) (key k2 : GoString) (vs : List GoString)
    (h : key ≠ k2) : lookup (store v key vs) k2 = lookup v k2 := by
  induction v with
  | nil => simp [store, lookup, h]
  | cons e rest ih =>
    obtain ⟨k, old⟩ := e
    by_cases hk : k = key
    · subst hk
      simp [store, lookup, h]
    · by_cases hk2 : k = k2
      · subst hk2
        simp [store, hk, lookup]
      · simp [store, hk, lookup, hk2, ih]

end Values

theorem hex_digit_inverse (b : Byte) :
    unhex (lowerhex (b.val / 16)) * 16 + unhex (lowerhex (b.val % 16)) = b.val := by
  revert b
  decide!

theorem hex_injective (a b : List Byte) (h : hex a = hex b) : a = b := by
  induction a generalizing b with
  | nil =>
    cases b with
    | nil => rfl
    | cons y ys => simp [hex] at h
  | cons x xs ih =>
    cases b with
    | nil => simp [hex] at h
    | cons y ys =>
      simp only [hex, List.flatMap_cons, List.cons_append, List.nil_append, List.cons.injEq] at h
      obtain ⟨h1, h2, h3⟩ := h
      have hx := hex_digit_inverse x
      have hy := hex_digit_inverse y
      rw [h1, h2] at hx
      have hxy : x = y := Fin.ext (hx.symm.trans hy)
      rw [hxy, ih ys h3]

theorem flatMap_congr_of_not_mem (f g : GoString → GoString) (key : GoString)
    (hfg : ∀ k, k ≠ key → f k = g k) (l : List GoString) (h : key ∉ l) :
    l.flatMap f = l.flatMap g := by
  induction l with
  | nil => rfl
  | cons x xs ih =>
    simp only [List.mem_cons, not_or] at h
    simp only [List.flatMap_cons]
    rw [hfg x (fun e => h.1 e.symm), ih h.2]

/-- Two canonical concatenations over the same names that differ in the value of
one name only are different. -/
theorem flatMap_pairs_ne (f g : GoString → GoString) (key : GoString)
    (hfg : ∀ k, k ≠ key → f k = g k) (hne : f key ≠ g key) (l : List GoString)
    (hl : l.Nodup) (hmem : key ∈ l) (secret : GoString) :
    (l.flatMap fun k => k ++ str "=" ++ f k) ++ secret
      ≠ (l.flatMap fun k => k ++ str "=" ++ g k) ++ secret := by
  obtain ⟨l1, l2, rfl⟩ := List.append_of_mem hmem
  have hnd := List.nodup_append.mp hl
  have h1 : key ∉ l1 := fun hm => hnd.2.2 hm (List.mem_cons_self key l2)
  have h2 : key ∉ l2 := (List.nodup_cons.mp hnd.2.1).1
  have e1 := flatMap_congr_of_not_mem (fun k => k ++ str "=" ++ f k)
    (fun k => k ++ str "=" ++ g k) key (fun k hk => by simp only [hfg k hk]) l1 h1
  have e2 := flatMap_congr_of_not_mem (fun k => k ++ str "=" ++ f k)
    (fun k => k ++ str "=" ++ g k) key (fun k hk => by simp only [hfg k hk]) l2 h2
  intro heq
  simp only [List.flatMap_append, List.flatMap_cons] at heq
  rw [e1, e2] at heq
  simp only [List.append_assoc] at heq
  have h3 := List.append_cancel_left (List.append_cancel_left (List.append_cancel_left heq))
  exact hne (List.append_cancel_right h3)

/-- C3 as stated fails: MD5 has collisions.  With the two colliding messages of Wang
and Yu cut at their `=` byte, two different values of one parameter get the same
signature, and so do two different secrets. -/
theorem signServer_collision :
    collisionValueA ≠ collisionValueB
    ∧ signTestClient.signServer [(collisionKey, [collisionValueA])]
        = signTestClient.signServer [(collisionKey, [collisionValueB])]
    ∧ collisionSecretA ≠ collisionSecretB
    ∧ Client.signServer { testClient with SecretKey := collisionSecretA }
          [(collisionKey, [collisionHead])]
        = Client.signServer { testClient with SecretKey := collisionSecretB }
          [(collisionKey, [collisionHead])] := by
  decide!

/-- C3, amended. Giving one parameter a value other than the one `Get` returns for
it, or replacing the secret by another one, changes the buffer that `signServer`
hashes; and two signatures are equal exactly when the MD5 digests of the two
buffers are equal. -/
theorem signServer_change (client : Client) (params : Values) (hp : Values.WF params) :
    (∀ key value, key ∈ Values.keys params → value ≠ Values.Get params key →
        client.signBuffer (Values.Set params key value) ≠ client.signBuffer params)
    ∧ (∀ secret, secret ≠ client.SecretKey →
        Client.signBuffer { client with SecretKey := secret } params ≠ client.signBuffer params)
    ∧ (∀ (c2 : Client) (p2 : Values), client.signServer params = c2.signServer p2 ↔
        md5.Sum (client.signBuffer params) = md5.Sum (c2.signBuffer p2)) := by
  refine ⟨?_, ?_, ?_⟩
  · intro key value hmem hne
    rw [signBuffer_eq, signBuffer_eq, Values.Set, Values.keys_store_of_mem params key [value] hmem]
    have hnd : (sortStrings (Values.keys params)).Nodup :=
      (List.Perm.nodup_iff (sortStrings_perm (Values.keys params))).mpr hp
    have hm : key ∈ sortStrings (Values.keys params) :=
      (sortStrings_perm (Values.keys params)).mem_iff.mpr hmem
    refine flatMap_pairs_ne (Values.Get (Values.store params key [value])) (Values.Get params)
      key ?_ ?_ _ hnd hm client.SecretKey
    · intro k hk
      simp only [Values.Get, Values.lookup_store_other params key k [value] (fun e => hk e.symm)]
    · simp only [Values.Get, Values.lookup_store_same]
      exact hne
  · intro secret hne heq
    rw [signBuffer_eq, signBuffer_eq] at heq
    exact hne (List.append_cancel_left heq)
  · intro c2 p2
    unfold Client.signServer
    exact ⟨fun h => hex_injective _ _ h, fun h => by rw [h]⟩

/-- C3, amended, at the parameters of the signing test: another value of `secure`, or
another secret, changes the hashed buffer, and here the signature as well. -/
theorem signServer_change_witness :
    Values.WF signTestParams
    ∧ signTestClient.signBuffer (Values.Set signTestParams (str "secure") (str "0"))
        ≠ signTestClient.signBuffer signTestParams
    ∧ Client.signBuffer { signTestClient with SecretKey := str "s" } signTestParams
        ≠ signTestClient.signBuffer signTestParams
    ∧ signTestClient.signServer (Values.Set signTestParams (str "secure") (str "0"))
        ≠ signTestClient.signServer signTestParams :=
  ⟨by decide!,
   (signServer_change signTestClient signTestParams (by decide!)).1 (str "secure") (str "0")
     (by decide!) (by decide!),
   (signServer_change signTestClient signTestParams (by decide!)).2.1 (str "s") (by decide!),
   by decide!⟩

/-! ## Query escaping and unescaping -/

theorem escape_eq_flatMap (s : GoString) (mode : encoding) :
    escape s mode = s.flatMap (escapeByte mode) := by
  simp only [escape]
  split
  · rename_i h
    have hall : ∀ c ∈ s, escapeByte mode c = [c] := by
      intro c hc
      have h1 := List.countP_eq_zero.mp h.1 c hc
      have h2 := List.countP_eq_zero.mp h.2 c hc
      have hs : shouldEscape c mode = false := by
        cases hse : shouldEscape c mode with
        | false => rfl
        | true =>
          rw [hse] at h1 h2
          cases hb : (decide (c = 32) && decide (mode = encodeQueryComponent)) with
          | false => rw [hb] at h2; simp at h2
          | true => rw [hb] at h1; simp at h1
      have hq : ¬ (c = 32 ∧ mode = encodeQueryComponent) := by
        rintro ⟨rfl, rfl⟩
        revert hs
        decide
      simp [escapeByte, hs, hq]
    clear h
    induction s with
    | nil => rfl
    | cons x xs ih =>
      rw [List.flatMap_cons, hall x (List.mem_cons_self x xs),
        ← ih (fun c hc => hall c (List.mem_cons_of_mem x hc))]
      rfl
  · rfl

theorem escapeByte_query_cases (c : Byte) :
    (c = 32 ∧ escapeByte encodeQueryComponent c = [43])
    ∨ (escapeByte encodeQueryComponent c = [37, upperhex (c.val / 16), upperhex (c.val % 16)]
        ∧ ishex (upperhex (c.val / 16)) = true ∧ ishex (upperhex (c.val % 16)) = true
        ∧ (Fin.ofNat ((unhex (upperhex (c.val / 16)) <<< 4 ||| unhex (upperhex (c.val % 16))) % 256)
            : Byte) = c)
    ∨ (escapeByte encodeQueryComponent c = [c] ∧ c ≠ 37 ∧ c ≠ 43) := by
  revert c
  decide!

theorem escapeByte_query_no_sep_aux (c : Byte) :
    (escapeByte encodeQueryComponent c).all (fun x => x != 38 && x != 59 && x != 61) = true := by
  revert c
  decide!

theorem escapeByte_query_no_sep (c : Byte) :
    ∀ x ∈ escapeByte encodeQueryComponent c, x ≠ 38 ∧ x ≠ 59 ∧ x ≠ 61 := by
  intro x hx
  have h := List.all_eq_true.mp (escapeByte_query_no_sep_aux c) x hx
  simp at h
  exact ⟨h.1.1, h.1.2, h.2⟩

theorem unescapeBuild_other (c : Byte) (r : GoString) (h37 : c ≠ 37) :
    unescapeBuild (c :: r) = (if c = 43 then 32 else c) :: unescapeBuild r := by
  rcases r with _ | ⟨a, _ | ⟨b, r⟩⟩ <;> by_cases h43 : c = 43 <;> simp [unescapeBuild, h37, h43]

theorem unescapeBuild_pct (a b : Byte) (r : GoString) :
    unescapeBuild (37 :: a :: b :: r)
      = Fin.ofNat ((unhex a <<< 4 ||| unhex b) % 256) :: unescapeBuild r := by
  simp [unescapeBuild]

theorem unescapeScan_other (c : Byte) (r : GoString) (n : Nat) (hasPlus : Bool)
    (h37 : c ≠ 37) :
    unescapeScan (c :: r) n hasPlus = unescapeScan r n (if c = 43 then true else hasPlus) := by
  rcases r with _ | ⟨a, _ | ⟨b, r⟩⟩ <;> by_cases h43 : c = 43 <;> simp [unescapeScan, h37, h43]

theorem unescapeScan_pct (a b : Byte) (r : GoString) (n : Nat) (hasPlus : Bool)
    (ha : ishex a = true) (hb : ishex b = true) :
    unescapeScan (37 :: a :: b :: r) n hasPlus = unescapeScan r (n + 1) hasPlus := by
  simp [unescapeScan, ha, hb]

theorem unescapeScan_mono (s : GoString) (n : Nat) (hasPlus : Bool) (n2 : Nat) (hp2 : Bool)
    (h : unescapeScan s n hasPlus = .ok (n2, hp2)) : n ≤ n2 ∧ (hasPlus = true → hp2 = true) := by
  induction s, n, hasPlus using unescapeScan.induct with
  | case1 n hasPlus =>
    simp only [unescapeScan, Except.ok.injEq, Prod.mk.injEq] at h
    exact ⟨by omega, fun e => by rw [← h.2, e]⟩
  | case2 n hasPlus a b rest2 hab ih =>
    simp only [Bool.and_eq_true] at hab
    rw [unescapeScan_pct a b rest2 n hasPlus hab.1 hab.2] at h
    exact ⟨by have := (ih h).1; omega, (ih h).2⟩
  | case3 n hasPlus a b rest2 hab =>
    simp [unescapeScan, hab] at h
  | case4 rest n hasPlus hrest =>
    rcases rest with _ | ⟨a, _ | ⟨b, r⟩⟩
    · simp [unescapeScan] at h
    · simp [unescapeScan] at h
    · exact absurd rfl (fun e => hrest a b r e)
  | case5 rest n hasPlus _ ih =>
    rw [unescapeScan_other 43 rest n hasPlus (by decide)] at h
    exact ⟨(ih h).1, fun _ => (ih h).2 rfl⟩
  | case6 c rest n hasPlus h37 h43 ih =>
    rw [unescapeScan_other c rest n hasPlus h37] at h
    simp only [h43, if_false] at h
    exact ih h

/-- When the first pass finds no `%` and no `+`, the second pass copies the string. -/
theorem unescapeBuild_of_clean (s : GoString) (n : Nat)
    (h : unescapeScan s n false = .ok (n, false)) : unescapeBuild s = s := by
  induction s with
  | nil => rfl
  | cons c r ih =>
    by_cases h37 : c = 37
    · subst h37
      rcases r with _ | ⟨a, _ | ⟨b, r⟩⟩
      · simp [unescapeScan] at h
      · simp [unescapeScan] at h
      · by_cases hab : (ishex a && ishex b) = true
        · simp only [Bool.and_eq_true] at hab
          rw [unescapeScan_pct a b r n false hab.1 hab.2] at h
          have := (unescapeScan_mono r (n + 1) false n false h).1
          omega
        · simp [unescapeScan, hab] at h
    · rw [unescapeScan_other c r n false h37] at h
      rw [unescapeBuild_other c r h37]
      by_cases h43 : c = 43
      · simp only [h43, if_true] at h
        have := (unescapeScan_mono r n true n false h).2 rfl
        simp at this
      · simp only [h43, if_false] at h ⊢
        rw [ih h]

theorem QueryUnescape_eq (s : GoString) :
    QueryUnescape s = (unescapeScan s 0 false).map fun _ => unescapeBuild s := by
  unfold QueryUnescape
  cases h : unescapeScan s 0 false with
  | error e => rfl
  | ok r =>
    obtain ⟨n, hasPlus⟩ := r
    by_cases hc : n = 0 ∧ hasPlus = false
    · obtain ⟨rfl, rfl⟩ := hc
      simp [Except.map, unescapeBuild_of_clean s 0 h]
    · simp [Except.map, hc]

/-- An escaped query component contains no `&`, no `;` and no `=`. -/
theorem QueryEscape_no_sep (s : GoString) : ∀ x ∈ QueryEscape s, x ≠ 38 ∧ x ≠ 59 ∧ x ≠ 61 := by
  intro x hx
  rw [QueryEscape, escape_eq_flatMap] at hx
  obtain ⟨c, _, hc⟩ := List.mem_flatMap.mp hx
  exact escapeByte_query_no_sep c x hc

theorem unescapeBuild_escape (s : GoString) :
    unescapeBuild (s.flatMap (escapeByte encodeQueryComponent)) = s := by
  induction s with
  | nil => rfl
  | cons c cs ih =>
    rw [List.flatMap_cons]
    rcases escapeByte_query_cases c with ⟨h1, h2⟩ | ⟨h2, _, _, h5⟩ | ⟨h2, h3, h4⟩
    · rw [h2, h1, List.singleton_append, unescapeBuild_other 43 _ (by decide), ih]
      rfl
    · rw [h2]
      simp only [List.cons_append, List.nil_append]
      rw [unescapeBuild_pct, h5, ih]
    · rw [h2, List.singleton_append, unescapeBuild_other c _ h3, ih]
      simp only [h4, if_false]

theorem unescapeScan_escape (s : GoString) (n : Nat) (hasPlus : Bool) :
    ∃ r, unescapeScan (s.flatMap (escapeByte encodeQueryComponent)) n hasPlus = .ok r := by
  induction s generalizing n hasPlus with
  | nil => exact ⟨(n, hasPlus), rfl⟩
  | cons c cs ih =>
    rw [List.flatMap_cons]
    rcases escapeByte_query_cases c with ⟨_, h2⟩ | ⟨h2, h3, h4, _⟩ | ⟨h2, h3, h4⟩
    · rw [h2, List.singleton_append, unescapeScan_other 43 _ n hasPlus (by decide)]
      exact ih n _
    · rw [h2]
      simp only [List.cons_append, List.nil_append]
      rw [unescapeScan_pct _ _ _ n hasPlus h3 h4]
      exact ih (n + 1) hasPlus
    · rw [h2, List.singleton_append, unescapeScan_other c _ n hasPlus h3]
      exact ih n _

/-- Unescaping an escaped query component gives the component back. -/
theorem QueryUnescape_QueryEscape (s : GoString) : QueryUnescape (QueryEscape s) = .ok s := by
  rw [QueryUnescape_eq, QueryEscape, escape_eq_flatMap]
  obtain ⟨r, hr⟩ := unescapeScan_escape s 0 false
  rw [hr, unescapeBuild_escape]
  rfl

/-! ## Splitting and parsing an encoded query -/

theorem splitAmp_of_not_mem (a : GoString) (h : (38 : Byte) ∉ a) : splitAmp a = [a] := by
  induction a with
  | nil => rfl
  | cons c cs ih =>
    simp only [List.mem_cons, not_or] at h
    have hc : ¬ c = 38 := fun e => h.1 e.symm
    simp [splitAmp, hc, ih h.2]

theorem splitAmp_append (a b : GoString) (h : (38 : Byte) ∉ a) :
    splitAmp (a ++ 38 :: b) = a :: splitAmp b := by
  induction a with
  | nil => simp [splitAmp]
  | cons c cs ih =>
    simp only [List.mem_cons, not_or] at h
    have hc : ¬ c = 38 := fun e => h.1 e.symm
    simp [splitAmp, hc, ih h.2]

theorem Cut_append (a b : GoString) (sep : Byte) (h : sep ∉ a) :
    Cut (a ++ sep :: b) sep = (a, b, true) := by
  induction a with
  | nil => simp [Cut]
  | cons c cs ih =>
    simp only [List.mem_cons, not_or] at h
    have hc : ¬ c = sep := fun e => h.1 e.symm
    simp [Cut, hc, ih h.2]

theorem encodePair_no_amp (p : GoString × GoString) : (38 : Byte) ∉ encodePair p := by
  intro h
  simp only [encodePair, List.mem_append, List.mem_singleton] at h
  rcases h with (h | h) | h
  · exact (QueryEscape_no_sep p.1 38 h).1 rfl
  · exact absurd h (by decide)
  · exact (QueryEscape_no_sep p.2 38 h).1 rfl

/-- The loop body of `parseQuery` on an encoded pair adds the pair to the map. -/
theorem parseQueryPiece_encodePair (m : Values) (p : GoString × GoString) :
    parseQueryPiece m (encodePair p) = Values.Add m p.1 p.2 := by
  have h59 : (59 : Byte) ∉ encodePair p := by
    intro h
    simp only [encodePair, List.mem_append, List.mem_singleton] at h
    rcases h with (h | h) | h
    · exact (QueryEscape_no_sep p.1 59 h).2.1 rfl
    · exact absurd h (by decide)
    · exact (QueryEscape_no_sep p.2 59 h).2.1 rfl
  have hne : encodePair p ≠ [] := by simp [encodePair]
  have h61 : (61 : Byte) ∉ QueryEscape p.1 := fun h => (QueryEscape_no_sep p.1 61 h).2.2 rfl
  have hcut : Cut (encodePair p) 61 = (QueryEscape p.1, QueryEscape p.2, true) := by
    simp only [encodePair, List.append_assoc, List.singleton_append]
    exact Cut_append _ _ 61 h61
  simp only [parseQueryPiece, h59, hne, if_false, hcut, QueryUnescape_QueryEscape]

theorem splitAmp_joinAmp (ps : List (GoString × GoString)) (h : ps ≠ []) :
    splitAmp (joinAmp (ps.map encodePair)) = ps.map encodePair := by
  induction ps with
  | nil => exact absurd rfl h
  | cons p rest ih =>
    cases rest with
    | nil => simp [joinAmp, splitAmp_of_not_mem _ (encodePair_no_amp p)]
    | cons q rest2 =>
      simp only [List.map_cons, joinAmp, List.append_assoc, List.singleton_append]
      rw [splitAmp_append _ _ (encodePair_no_amp p)]
      have := ih (by simp)
      simp only [List.map_cons] at this
      rw [this]

/-- Parsing the encoding of a list of pairs adds the pairs to the empty map, in order. -/
theorem ParseQuery_joinAmp (ps : List (GoString × GoString)) :
    ParseQuery (joinAmp (ps.map encodePair))
      = ps.foldl (fun m p => Values.Add m p.1 p.2) [] := by
  unfold ParseQuery
  cases ps with
  | nil => rfl
  | cons p rest =>
    rw [splitAmp_joinAmp _ (by simp), List.foldl_map]
    congr 1
    funext m q
    exact parseQueryPiece_encodePair m q

/-! ## `Encode` and the three URL builders -/

theorem joinAmp_cons (p : GoString) (rest : List GoString) :
    joinAmp (p :: rest) = p ++ rest.flatMap fun q => 38 :: q := by
  induction rest generalizing p with
  | nil => simp [joinAmp]
  | cons q rest2 ih => simp [joinAmp, ih q]

theorem foldl_encodeStep_of_ne (pieces : List GoString) (buf : GoString) (hbuf : buf ≠ [])
    (hp : ∀ p ∈ pieces, p ≠ []) :
    pieces.foldl encodeStep buf = buf ++ pieces.flatMap fun q => 38 :: q := by
  induction pieces generalizing buf with
  | nil => simp
  | cons p rest ih =>
    have hlen : buf.length > 0 := List.length_pos.mpr hbuf
    have hstep : encodeStep buf p = buf ++ [38] ++ p := by simp [encodeStep, hlen]
    rw [List.foldl_cons, hstep, ih _ (by simp [hbuf]) (fun q hq => hp q (List.mem_cons_of_mem p hq))]
    simp

theorem foldl_encodeStep (pieces : List GoString) (hp : ∀ p ∈ pieces, p ≠ []) :
    pieces.foldl encodeStep [] = joinAmp pieces := by
  cases pieces with
  | nil => rfl
  | cons p rest =>
    have hp1 : p ≠ [] := hp p (List.mem_cons_self p rest)
    have hstep : encodeStep [] p = p := by simp [encodeStep]
    rw [List.foldl_cons, hstep,
      foldl_encodeStep_of_ne rest p hp1 (fun q hq => hp q (List.mem_cons_of_mem p hq)), joinAmp_cons]

theorem foldl_inner (k : GoString) (xs : List GoString) (acc : GoString) :
    xs.foldl
      (fun buf x => (if buf.length > 0 then buf ++ [38] else buf) ++ QueryEscape k ++ [61]
        ++ QueryEscape x) acc
      = ((xs.map fun x => (k, x)).map encodePair).foldl encodeStep acc := by
  induction xs generalizing acc with
  | nil => rfl
  | cons x rest ih =>
    simp only [List.foldl_cons, List.map_cons]
    rw [ih]
    simp [encodeStep, encodePair, List.append_assoc]

theorem foldl_nested (v : Values) (ks : List GoString) (acc : GoString) :
    ks.foldl
      (fun buf k =>
        (Values.lookup v k).foldl
          (fun buf x => (if buf.length > 0 then buf ++ [38] else buf) ++ QueryEscape k ++ [61]
            ++ QueryEscape x) buf) acc
      = ((ks.flatMap fun k => (Values.lookup v k).map fun x => (k, x)).map encodePair).foldl
          encodeStep acc := by
  induction ks generalizing acc with
  | nil => rfl
  | cons k rest ih =>
    rw [List.foldl_cons, ih, List.flatMap_cons, List.map_append, List.foldl_append, foldl_inner]

/-- `Encode` writes the pairs of the map, encoded and joined by `&`. -/
theorem Values.Encode_eq (v : Values) :
    Values.Encode v = joinAmp ((Values.pairs v).map encodePair) := by
  unfold Values.Encode
  rw [foldl_nested v (sortStrings (Values.keys v)) [], foldl_encodeStep]
  · rfl
  · intro p hp
    obtain ⟨q, _, rfl⟩ := List.mem_map.mp hp
    simp [encodePair]

/-- Parsing an encoded map gives its pairs added to the empty map in sorted key order. -/
theorem ParseQuery_Encode (v : Values) :
    ParseQuery (Values.Encode v) = (Values.pairs v).foldl (fun m p => Values.Add m p.1 p.2) [] := by
  rw [Values.Encode_eq, ParseQuery_joinAmp]

theorem base_query (client : Client) (action : GoString) :
    (client.base action).Query = [(appIDParameter, [client.ID]), (redirectParameter, [client.RedirectURL])] := by
  simp only [Client.base, URL.Query]
  rw [ParseQuery_Encode]
  rfl

theorem DialogURL_RawQuery (client : Client) :
    client.DialogURL.RawQuery
      = joinAmp ([(appIDParameter, client.ID), (redirectParameter, client.RedirectURL),
          (responseTypeParameter, responseTypeCode), (scopeParameter, client.Scope)].map
          encodePair) := by
  simp only [Client.DialogURL]
  rw [base_query, Values.Encode_eq]
  rfl

theorem accessTokenURL_RawQuery (client : Client) (code : GoString) :
    (client.accessTokenURL code).RawQuery
      = joinAmp ([(appIDParameter, client.ID), (appSecretParameter, client.Secret),
          (codeParameter, code), (grantTypeParameter, grantType),
          (redirectParameter, client.RedirectURL)].map encodePair) := by
  simp only [Client.accessTokenURL]
  rw [base_query, Values.Encode_eq]
  rfl

/-- The query that `GetUser` signs: the base parameters deleted, `method` and `uids`
added. -/
theorem getUserURL_signed (client : Client) (uid : GoString) :
    Values.Add (Values.Add (Values.Del (Values.Del (ParseQuery (client.base []).RawQuery)
        appIDParameter) redirectParameter) methodParameter usersGetAction) uidsParameter uid
      = [(methodParameter, [usersGetAction]), (uidsParameter, [uid])] := by
  have h := base_query client []
  simp only [URL.Query] at h
  rw [h]
  rfl

theorem getUserURL_RawQuery (client : Client) (uid : GoString) :
    (client.getUserURL uid).RawQuery
      = joinAmp ([(methodParameter, usersGetAction),
          (sigParameter, client.signServer [(methodParameter, [usersGetAction]), (uidsParameter, [uid])]),
          (uidsParameter, uid)].map encodePair) := by
  simp only [Client.getUserURL, URL.Query]
  rw [getUserURL_signed client uid, Values.Encode_eq]
  rfl

theorem URL.String_query (s h p rq : GoString) (hrq : rq ≠ []) :
    URL.String ⟨s, h, p, rq⟩ = URL.String ⟨s, h, p, []⟩ ++ [63] ++ rq := by
  simp [URL.String, URL.EscapedPath, hrq]

theorem URL.String_of_fields (u : URL) (s h p rq : GoString) (hs : u.Scheme = s)
    (hh : u.Host = h) (hp : u.Path = p) (hq : u.RawQuery = rq) (hne : rq ≠ []) :
    u.String = URL.String ⟨s, h, p, []⟩ ++ [63] ++ rq := by
  obtain ⟨s1, h1, p1, rq1⟩ := u
  simp only at hs hh hp hq
  subst hs hh hp hq
  exact URL.String_query _ _ _ _ hne

theorem joinAmp_encodePair_ne (p : GoString × GoString) (rest : List (GoString × GoString)) :
    joinAmp ((p :: rest).map encodePair) ≠ [] := by
  rw [List.map_cons, joinAmp_cons]
  simp [encodePair]

theorem GetUser_calls (httpClient : mockHTTPClient) (json : Decoder) (client : Client)
    (uid : GoString) :
    (client.GetUser httpClient json uid).calls = [(client.getUserURL uid).String] := by
  simp only [Client.GetUser]
  split
  · rfl
  · split
    · rfl
    · split <;> rfl

theorem signBuffer_getUser (client : Client) (uid : GoString) :
    client.signBuffer [(methodParameter, [usersGetAction]), (uidsParameter, [uid])]
      = str "method=users.getuids=" ++ uid ++ client.SecretKey := by
  rw [signBuffer_eq]
  have hk : sortStrings (Values.keys [(methodParameter, [usersGetAction]), (uidsParameter, [uid])])
      = [methodParameter, uidsParameter] := rfl
  have h1 : Values.Get [(methodParameter, [usersGetAction]), (uidsParameter, [uid])] methodParameter
      = usersGetAction := rfl
  have h2 : Values.Get [(methodParameter, [usersGetAction]), (uidsParameter, [uid])] uidsParameter
      = uid := rfl
  have hT : str "method=users.getuids="
      = methodParameter ++ str "=" ++ usersGetAction ++ uidsParameter ++ str "=" := by decide!
  rw [hk, hT]
  simp only [List.flatMap_cons, List.flatMap_nil, h1, h2, List.append_assoc, List.append_nil]

/-- C4. The dialog URL is the fixed text with the escaped `ID`, `RedirectURL` and
`Scope` in the places of the four parameters `client_id`, `redirect_uri`,
`response_type=code` and `scope`, in this (alphabetical) order; `Secret` and
`SecretKey` play no part in it. -/
theorem DialogURL_String (client : Client) :
    client.DialogURL.String
        = str "https://connect.mail.ru/oauth/authorize?client_id=" ++ QueryEscape client.ID
          ++ str "&redirect_uri=" ++ QueryEscape client.RedirectURL
          ++ str "&response_type=code&scope=" ++ QueryEscape client.Scope
    ∧ ∀ secret secretKey : GoString,
        (Client.DialogURL { client with Secret := secret, SecretKey := secretKey }).String
          = client.DialogURL.String := by
  have main : ∀ c : Client, c.DialogURL.String
      = str "https://connect.mail.ru/oauth/authorize?client_id=" ++ QueryEscape c.ID
        ++ str "&redirect_uri=" ++ QueryEscape c.RedirectURL
        ++ str "&response_type=code&scope=" ++ QueryEscape c.Scope := by
    intro c
    rw [URL.String_of_fields c.DialogURL scheme host authAction _ rfl rfl rfl
      (DialogURL_RawQuery c) (joinAmp_encodePair_ne _ _)]
    have hT1 : str "https://connect.mail.ru/oauth/authorize?client_id="
        = URL.String ⟨scheme, host, authAction, []⟩ ++ [63] ++ QueryEscape appIDParameter ++ [61] := by
      decide!
    have hT2 : str "&redirect_uri=" = [38] ++ QueryEscape redirectParameter ++ [61] := by decide!
    have hT3 : str "&response_type=code&scope="
        = [38] ++ QueryEscape responseTypeParameter ++ [61] ++ QueryEscape responseTypeCode
          ++ [38] ++ QueryEscape scopeParameter ++ [61] := by decide!
    rw [hT1, hT2, hT3]
    simp only [List.map, joinAmp, encodePair, List.append_assoc]
  exact ⟨main client, fun secret secretKey => by rw [main, main]⟩

/-- C4 at the client of the repository's test. -/
theorem DialogURL_String_test :
    testClient.DialogURL.String
      = str ("https://connect.mail.ru/oauth/authorize?client_id=APP_ID" ++
          "&redirect_uri=REDIRECT_URI&response_type=code&scope=PERMISSIONS") :=
  (DialogURL_String testClient).1.trans (by decide!)

/-- C5. The token-exchange URL is the fixed text with the escaped `ID`, `Secret`,
code and `RedirectURL` in the places of the five parameters `client_id`,
`client_secret`, `code`, `grant_type=authorization_code` and `redirect_uri`, in this
order. -/
theorem accessTokenURL_String (client : Client) (code : GoString) :
    (client.accessTokenURL code).String
      = str "https://connect.mail.ru/access_token?client_id=" ++ QueryEscape client.ID
        ++ str "&client_secret=" ++ QueryEscape client.Secret
        ++ str "&code=" ++ QueryEscape code
        ++ str "&grant_type=authorization_code&redirect_uri=" ++ QueryEscape client.RedirectURL := by
  rw [URL.String_of_fields (client.accessTokenURL code) scheme host accessTokenAction _ rfl rfl
    rfl (accessTokenURL_RawQuery client code) (joinAmp_encodePair_ne _ _)]
  have hT1 : str "https://connect.mail.ru/access_token?client_id="
      = URL.String ⟨scheme, host, accessTokenAction, []⟩ ++ [63] ++ QueryEscape appIDParameter
        ++ [61] := by
    decide!
  have hT2 : str "&client_secret=" = [38] ++ QueryEscape appSecretParameter ++ [61] := by decide!
  have hT3 : str "&code=" = [38] ++ QueryEscape codeParameter ++ [61] := by decide!
  have hT4 : str "&grant_type=authorization_code&redirect_uri="
      = [38] ++ QueryEscape grantTypeParameter ++ [61] ++ QueryEscape grantType
        ++ [38] ++ QueryEscape redirectParameter ++ [61] := by decide!
  rw [hT1, hT2, hT3, hT4]
  simp only [List.map, joinAmp, encodePair, List.append_assoc]

/-- C5 at the client of the repository's test, with the code `CODE`. -/
theorem accessTokenURL_String_test :
    (testClient.accessTokenURL (str "CODE")).String
      = str ("https://connect.mail.ru/access_token?client_id=APP_ID&client_secret=APP_SECRET" ++
          "&code=CODE&grant_type=authorization_code&redirect_uri=REDIRECT_URI") :=
  (accessTokenURL_String testClient (str "CODE")).trans (by decide!)

theorem escapeByte_lowerhex (b : Byte) :
    escapeByte encodeQueryComponent (lowerhex (b.val / 16)) = [lowerhex (b.val / 16)]
    ∧ escapeByte encodeQueryComponent (lowerhex (b.val % 16)) = [lowerhex (b.val % 16)] := by
  revert b
  decide!

/-- Hexadecimal digits need no escaping. -/
theorem QueryEscape_hex (bs : List Byte) : QueryEscape (hex bs) = hex bs := by
  rw [QueryEscape, escape_eq_flatMap]
  induction bs with
  | nil => rfl
  | cons b rest ih =>
    have h := escapeByte_lowerhex b
    simp only [hex, List.flatMap_cons, List.flatMap_append, List.flatMap_nil, h.1, h.2,
      List.append_nil] at ih ⊢
    rw [ih]
    rfl

theorem signServer_getUser (client : Client) (uid : GoString) :
    client.signServer [(methodParameter, [usersGetAction]), (uidsParameter, [uid])]
      = hex (md5.Sum (str "method=users.getuids=" ++ uid ++ client.SecretKey)) := by
  unfold Client.signServer
  rw [signBuffer_getUser]

theorem getUserURL_RawQuery_text (client : Client) (uid : GoString) :
    (client.getUserURL uid).RawQuery
      = str "method=users.get&sig="
        ++ hex (md5.Sum (str "method=users.getuids=" ++ uid ++ client.SecretKey))
        ++ str "&uids=" ++ QueryEscape uid := by
  rw [getUserURL_RawQuery, signServer_getUser]
  have hT1 : str "method=users.get&sig="
      = QueryEscape methodParameter ++ [61] ++ QueryEscape usersGetAction ++ [38]
        ++ QueryEscape sigParameter ++ [61] := by
    decide!
  have hT2 : str "&uids=" = [38] ++ QueryEscape uidsParameter ++ [61] := by decide!
  rw [hT1, hT2]
  simp only [List.map, joinAmp, encodePair, List.append_assoc, QueryEscape_hex]

theorem getUserURL_ne (client : Client) (uid : GoString) : (client.getUserURL uid).RawQuery ≠ [] := by
  rw [getUserURL_RawQuery]
  exact joinAmp_encodePair_ne _ _

theorem getUserURL_String (client : Client) (uid : GoString) :
    (client.getUserURL uid).String
      = str "https://www.appsmail.ru?" ++ (client.getUserURL uid).RawQuery := by
  rw [URL.String_of_fields (client.getUserURL uid) scheme apiHost [] _ rfl rfl rfl rfl
    (getUserURL_ne client uid)]
  have hT : str "https://www.appsmail.ru?" = URL.String ⟨scheme, apiHost, [], []⟩ ++ [63] := by
    decide!
  rw [hT]

/-- C6 fails on the code. `GetUser` passes exactly one URL to the transport; its scheme is
`https` and its host `www.appsmail.ru`, but its path is empty (`base` is called with
the empty action and `apiUrl` is never used), so the text of the URL continues with
`?` right after the host and does not start with
`https://www.appsmail.ru/platform/api?`. -/
theorem GetUser_url_no_path (httpClient : mockHTTPClient) (json : Decoder) (client : Client)
    (uid : GoString) :
    (client.GetUser httpClient json uid).calls = [(client.getUserURL uid).String]
    ∧ (client.getUserURL uid).Scheme = str "https"
    ∧ (client.getUserURL uid).Host = str "www.appsmail.ru"
    ∧ (client.getUserURL uid).Path = []
    ∧ (client.getUserURL uid).String
        = str "https://www.appsmail.ru?" ++ (client.getUserURL uid).RawQuery
    ∧ ¬ (str "https://www.appsmail.ru/platform/api?" <+: (client.getUserURL uid).String) := by
  refine ⟨GetUser_calls httpClient json client uid, rfl, rfl, rfl, getUserURL_String client uid, ?_⟩
  rw [getUserURL_String]
  rintro ⟨t, ht⟩
  have h := congrArg (List.take 24) ht
  have hL : (str "https://www.appsmail.ru/platform/api?" ++ t).take 24
      = str "https://www.appsmail.ru/" := by
    have hs : str "https://www.appsmail.ru/platform/api?"
        = str "https://www.appsmail.ru/" ++ str "platform/api?" := by decide!
    rw [hs, List.append_assoc]
    exact List.take_left' (by decide!)
  have hR : (str "https://www.appsmail.ru?" ++ (client.getUserURL uid).RawQuery).take 24
      = str "https://www.appsmail.ru?" := List.take_left' (by decide!)
  rw [hL, hR] at h
  revert h
  decide!

/-- C7. `GetUser` passes exactly one URL to the transport. Its query is
`method=users.get&sig=<sig>&uids=<uid escaped>`; parsed, it holds exactly the three
parameters `method`, `sig` and `uids`, each with one value. `sig` is `signServer` of
the two-entry map of `method` and `uids`, which is the lowercase hex MD5 of
`method=users.getuids=` followed by the uid and `SecretKey`; `client_id` and
`redirect_uri` are in neither. -/
theorem GetUser_query (httpClient : mockHTTPClient) (json : Decoder) (client : Client)
    (uid : GoString) :
    (client.GetUser httpClient json uid).calls = [(client.getUserURL uid).String]
    ∧ (client.getUserURL uid).Query
        = [(methodParameter, [usersGetAction]),
           (sigParameter,
             [client.signServer [(methodParameter, [usersGetAction]), (uidsParameter, [uid])]]),
           (uidsParameter, [uid])]
    ∧ client.signServer [(methodParameter, [usersGetAction]), (uidsParameter, [uid])]
        = hex (md5.Sum (str "method=users.getuids=" ++ uid ++ client.SecretKey))
    ∧ (client.getUserURL uid).RawQuery
        = str "method=users.get&sig="
          ++ hex (md5.Sum (str "method=users.getuids=" ++ uid ++ client.SecretKey))
          ++ str "&uids=" ++ QueryEscape uid := by
  refine ⟨GetUser_calls httpClient json client uid, ?_, signServer_getUser client uid,
    getUserURL_RawQuery_text client uid⟩
  rw [URL.Query, getUserURL_RawQuery, ParseQuery_joinAmp]
  rfl

/-! ## The two operations -/

/-- C8. When the query of the redirect request has no `code` parameter, or the first
value of `code` is the empty string, `GetAccessToken` returns a nil token and
`ErrorBadCode`, and calls the transport's `Get` not at all. -/
theorem GetAccessToken_bad_code (httpClient : mockHTTPClient) (json : Decoder) (client : Client)
    (req : Request)
    (h : codeParameter ∉ Values.keys req.URL.Query
      ∨ ∃ rest, Values.lookup req.URL.Query codeParameter = [] :: rest) :
    (client.GetAccessToken httpClient json req).value = none
    ∧ (client.GetAccessToken httpClient json req).err = some Error.ErrorBadCode
    ∧ (client.GetAccessToken httpClient json req).calls = [] := by
  have hget : Values.Get req.URL.Query codeParameter = [] := by
    rcases h with h | ⟨rest, h⟩
    · simp only [Values.Get, Values.lookup_of_not_mem _ _ h]
    · simp only [Values.Get, h]
  simp [Client.GetAccessToken, hget]

/-- C8 at the request of the "Bad url" test, which has no `code`, and at a request
whose first `code` is empty, with a transport that would answer. -/
theorem GetAccessToken_bad_code_witness :
    codeParameter ∉ Values.keys badUrlRequest.URL.Query
    ∧ (testClient.GetAccessToken (bodyClient (str "asdfasdf"))
        (fixedDecoder [] AccessToken.zero) badUrlRequest).err = some Error.ErrorBadCode
    ∧ (testClient.GetAccessToken (bodyClient (str "asdfasdf"))
        (fixedDecoder [] AccessToken.zero) badUrlRequest).calls = []
    ∧ Values.lookup emptyCodeRequest.URL.Query codeParameter = [[], str "abc"]
    ∧ (testClient.GetAccessToken (bodyClient (str "asdfasdf"))
        (fixedDecoder [] AccessToken.zero) emptyCodeRequest).value = none :=
  ⟨by decide!,
   (GetAccessToken_bad_code (bodyClient (str "asdfasdf")) (fixedDecoder [] AccessToken.zero)
      testClient badUrlRequest (Or.inl (by decide!))).2.1,
   (GetAccessToken_bad_code (bodyClient (str "asdfasdf")) (fixedDecoder [] AccessToken.zero)
      testClient badUrlRequest (Or.inl (by decide!))).2.2,
   by decide!,
   (GetAccessToken_bad_code (bodyClient (str "asdfasdf")) (fixedDecoder [] AccessToken.zero)
      testClient emptyCodeRequest (Or.inr ⟨[str "abc"], by decide!⟩)).1⟩

theorem GetUser_decoded (httpClient : mockHTTPClient) (json : Decoder) (client : Client)
    (uid : GoString) (res : Response) (L : List User)
    (hget : httpClient.Get (client.getUserURL uid).String = .ok res)
    (hdec : json.users res.Body = (L, none)) :
    client.GetUser httpClient json uid
      = if L.length ≠ 1 then ⟨User.zero, some Error.ErrorBadResponse, [(client.getUserURL uid).String]⟩
        else ⟨{ L.headD User.zero with
                Name := (L.headD User.zero).FirstName ++ str " " ++ (L.headD User.zero).LastName },
              none, [(client.getUserURL uid).String]⟩ := by
  simp only [Client.GetUser, hget, hdec]

/-- C9. When the GET succeeds and the body decodes to a list of users, `GetUser`
returns `ErrorBadResponse` exactly when the list does not have length 1, and no
error when it has length 1. -/
theorem GetUser_result_count (httpClient : mockHTTPClient) (json : Decoder) (client : Client)
    (uid : GoString) (res : Response) (L : List User)
    (hget : httpClient.Get (client.getUserURL uid).String = .ok res)
    (hdec : json.users res.Body = (L, none)) :
    ((client.GetUser httpClient json uid).err = some Error.ErrorBadResponse ↔ L.length ≠ 1)
    ∧ (L.length = 1 → (client.GetUser httpClient json uid).err = none) := by
  rw [GetUser_decoded httpClient json client uid res L hget hdec]
  by_cases hl : L.length = 1
  · simp [hl]
  · simp [hl]

/-- C9 at the "Multiple response" test (two users), at an empty list and at one user. -/
theorem GetUser_result_count_witness :
    (testClient.GetUser (bodyClient (str "[\x7b\x7d,\x7b\x7d]")) (fixedDecoder [testUser, testUser]
        AccessToken.zero) (str "6492")).err = some Error.ErrorBadResponse
    ∧ (testClient.GetUser (bodyClient (str "[]")) (fixedDecoder [] AccessToken.zero)
        (str "6492")).err = some Error.ErrorBadResponse
    ∧ (testClient.GetUser (bodyClient (str "[\x7b\x7d]")) (fixedDecoder [testUser] AccessToken.zero)
        (str "1")).err = none :=
  ⟨(GetUser_result_count (bodyClient (str "[\x7b\x7d,\x7b\x7d]")) (fixedDecoder [testUser, testUser]
      AccessToken.zero) testClient (str "6492") ⟨str "[\x7b\x7d,\x7b\x7d]"⟩ [testUser, testUser] rfl rfl).1.mpr
      (by decide),
   (GetUser_result_count (bodyClient (str "[]")) (fixedDecoder [] AccessToken.zero)
      testClient (str "6492") ⟨str "[]"⟩ [] rfl rfl).1.mpr (by decide),
   (GetUser_result_count (bodyClient (str "[\x7b\x7d]")) (fixedDecoder [testUser] AccessToken.zero)
      testClient (str "1") ⟨str "[\x7b\x7d]"⟩ [testUser] rfl rfl).2 rfl⟩

/-- C10. When the GET succeeds and the body decodes to exactly one user object,
`GetUser` returns no error and that user with `Name` set to the first name, a space
and the last name, whatever `Name` the decoded object had. -/
theorem GetUser_single (httpClient : mockHTTPClient) (json : Decoder) (client : Client)
    (uid : GoString) (res : Response) (x : User)
    (hget : httpClient.Get (client.getUserURL uid).String = .ok res)
    (hdec : json.users res.Body = ([x], none)) :
    (client.GetUser httpClient json uid).err = none
    ∧ (client.GetUser httpClient json uid).value
        = ⟨x.ID, x.Photo, x.FirstName, x.LastName, x.Email, x.FirstName ++ str " " ++ x.LastName⟩ := by
  rw [GetUser_decoded httpClient json client uid res [x] hget hdec]
  simp

/-- C10 at the user of the "Test getName" test, decoded with a stale `Name`. -/
theorem GetUser_single_witness :
    (testClient.GetUser (bodyClient (str "[\x7b\x7d]"))
        (fixedDecoder [{ testUser with Name := str "stale" }] AccessToken.zero) (str "1")).err = none
    ∧ (testClient.GetUser (bodyClient (str "[\x7b\x7d]"))
        (fixedDecoder [{ testUser with Name := str "stale" }] AccessToken.zero) (str "1")).value.Name
        = str "Евгений Маслов" :=
  ⟨(GetUser_single (bodyClient (str "[\x7b\x7d]"))
      (fixedDecoder [{ testUser with Name := str "stale" }] AccessToken.zero) testClient (str "1")
      ⟨str "[\x7b\x7d]"⟩ { testUser with Name := str "stale" } rfl rfl).1,
   (congrArg User.Name (GetUser_single (bodyClient (str "[\x7b\x7d]"))
      (fixedDecoder [{ testUser with Name := str "stale" }] AccessToken.zero) testClient (str "1")
      ⟨str "[\x7b\x7d]"⟩ { testUser with Name := str "stale" } rfl rfl).2).trans (by decide!)⟩


/-! ## Errors and results of the two operations -/

theorem GetAccessToken_get_error (httpClient : mockHTTPClient) (json : Decoder) (client : Client)
    (req : Request) (e : Error) (hcode : Values.Get req.URL.Query codeParameter ≠ [])
    (hget : httpClient.Get
      (client.accessTokenURL (Values.Get req.URL.Query codeParameter)).String = .error e) :
    client.GetAccessToken httpClient json req
      = ⟨none, some e, [(client.accessTokenURL (Values.Get req.URL.Query codeParameter)).String]⟩ := by
  simp only [Client.GetAccessToken, hcode, if_false, hget]

theorem GetAccessToken_get_ok (httpClient : mockHTTPClient) (json : Decoder) (client : Client)
    (req : Request) (res : Response) (hcode : Values.Get req.URL.Query codeParameter ≠ [])
    (hget : httpClient.Get
      (client.accessTokenURL (Values.Get req.URL.Query codeParameter)).String = .ok res) :
    client.GetAccessToken httpClient json req
      = ⟨some (json.token res.Body).1, (json.token res.Body).2,
          [(client.accessTokenURL (Values.Get req.URL.Query codeParameter)).String]⟩ := by
  simp only [Client.GetAccessToken, hcode, if_false, hget]

theorem GetUser_get_error (httpClient : mockHTTPClient) (json : Decoder) (client : Client)
    (uid : GoString) (e : Error)
    (hget : httpClient.Get (client.getUserURL uid).String = .error e) :
    client.GetUser httpClient json uid = ⟨User.zero, some e, [(client.getUserURL uid).String]⟩ := by
  simp only [Client.GetUser, hget]

theorem GetUser_decode_error (httpClient : mockHTTPClient) (json : Decoder) (client : Client)
    (uid : GoString) (res : Response) (e : Error)
    (hget : httpClient.Get (client.getUserURL uid).String = .ok res)
    (hdec : (json.users res.Body).2 = some e) :
    client.GetUser httpClient json uid = ⟨User.zero, some e, [(client.getUserURL uid).String]⟩ := by
  simp only [Client.GetUser, hget, hdec]

/-- C12. Whenever `GetUser` returns an error, the user it returns is the zero value. -/
theorem GetUser_error_zero (httpClient : mockHTTPClient) (json : Decoder) (client : Client)
    (uid : GoString) (h : (client.GetUser httpClient json uid).err ≠ none) :
    (client.GetUser httpClient json uid).value = User.zero := by
  simp only [Client.GetUser] at h ⊢
  split
  · rfl
  · split
    · rfl
    · split
      · rfl
      · rename_i res hget e hdec hlen
        simp only [hget, hdec, hlen, if_false] at h
        exact absurd rfl h

/-- C12 at the three kinds of failure: the transport fails, the body does not decode,
the body decodes to two users. -/
theorem GetUser_error_zero_witness :
    (testClient.GetUser nilClient (fixedDecoder [testUser] AccessToken.zero) (str "6492")).err ≠ none
    ∧ (testClient.GetUser nilClient (fixedDecoder [testUser] AccessToken.zero) (str "6492")).value
        = User.zero
    ∧ (testClient.GetUser (bodyClient (str "asdfasdf"))
        ⟨fun _ => ([testUser], some (Error.other (str "invalid character"))),
         fun _ => (AccessToken.zero, none)⟩ (str "6492")).value = User.zero
    ∧ (testClient.GetUser (bodyClient (str "two"))
        (fixedDecoder [testUser, testUser] AccessToken.zero) (str "6492")).value = User.zero :=
  ⟨by decide!,
   GetUser_error_zero nilClient (fixedDecoder [testUser] AccessToken.zero) testClient (str "6492")
     (by decide!),
   GetUser_error_zero (bodyClient (str "asdfasdf"))
     ⟨fun _ => ([testUser], some (Error.other (str "invalid character"))),
      fun _ => (AccessToken.zero, none)⟩ testClient (str "6492") (by decide!),
   GetUser_error_zero (bodyClient (str "two"))
     (fixedDecoder [testUser, testUser] AccessToken.zero) testClient (str "6492") (by decide!)⟩

/-- C13. When the transport's `Get` fails with `e`, `GetUser` and `GetAccessToken` (on a
request with a non-empty code) return exactly `e`, with the zero user and the nil
token; the result is the same for every decoder, so no body is decoded, and `Get` has
been called once. -/
theorem transport_error_returned (httpClient : mockHTTPClient) (client : Client) (e : Error) :
    (∀ (json : Decoder) (uid : GoString),
        httpClient.Get (client.getUserURL uid).String = .error e →
        client.GetUser httpClient json uid
          = ⟨User.zero, some e, [(client.getUserURL uid).String]⟩)
    ∧ (∀ (json : Decoder) (req : Request),
        Values.Get req.URL.Query codeParameter ≠ [] →
        httpClient.Get
          (client.accessTokenURL (Values.Get req.URL.Query codeParameter)).String = .error e →
        client.GetAccessToken httpClient json req
          = ⟨none, some e,
              [(client.accessTokenURL (Values.Get req.URL.Query codeParameter)).String]⟩) :=
  ⟨fun json uid hget => GetUser_get_error httpClient json client uid e hget,
   fun json req hcode hget => GetAccessToken_get_error httpClient json client req e hcode hget⟩

/-- C13 at the "Http error" tests: the mock without a response fails every GET. -/
theorem transport_error_returned_witness :
    (testClient.GetUser nilClient (fixedDecoder [testUser] AccessToken.zero) (str "6492")).err
        = some (Error.other (str "entity body too short"))
    ∧ (testClient.GetUser nilClient (fixedDecoder [testUser] AccessToken.zero) (str "6492")).calls.length
        = 1
    ∧ (testClient.GetAccessToken nilClient (fixedDecoder [] AccessToken.zero) codeRequest).err
        = some (Error.other (str "entity body too short"))
    ∧ (testClient.GetAccessToken nilClient (fixedDecoder [] AccessToken.zero) codeRequest).value
        = none
    ∧ (testClient.GetAccessToken nilClient (fixedDecoder [] AccessToken.zero) codeRequest).calls.length
        = 1 :=
  ⟨congrArg Outcome.err ((transport_error_returned nilClient testClient
      (Error.other (str "entity body too short"))).1 (fixedDecoder [testUser] AccessToken.zero)
      (str "6492") rfl),
   congrArg (fun o => o.calls.length) ((transport_error_returned nilClient testClient
      (Error.other (str "entity body too short"))).1 (fixedDecoder [testUser] AccessToken.zero)
      (str "6492") rfl),
   congrArg Outcome.err ((transport_error_returned nilClient testClient
      (Error.other (str "entity body too short"))).2 (fixedDecoder [] AccessToken.zero)
      codeRequest (by decide!) rfl),
   congrArg Outcome.value ((transport_error_returned nilClient testClient
      (Error.other (str "entity body too short"))).2 (fixedDecoder [] AccessToken.zero)
      codeRequest (by decide!) rfl),
   congrArg (fun o => o.calls.length) ((transport_error_returned nilClient testClient
      (Error.other (str "entity body too short"))).2 (fixedDecoder [] AccessToken.zero)
      codeRequest (by decide!) rfl)⟩

/-- C15. On a request whose first `code` value `c` is not empty, `GetAccessToken` calls
`Get` exactly once, with the text of `accessTokenURL(c)`, whatever the transport
answers. -/
theorem GetAccessToken_calls (httpClient : mockHTTPClient) (json : Decoder) (client : Client)
    (req : Request) (c : GoString) (hc : Values.Get req.URL.Query codeParameter = c)
    (hne : c ≠ []) :
    (client.GetAccessToken httpClient json req).calls = [(client.accessTokenURL c).String] := by
  subst hc
  cases hget : httpClient.Get
      (client.accessTokenURL (Values.Get req.URL.Query codeParameter)).String with
  | error e => rw [GetAccessToken_get_error httpClient json client req e hne hget]
  | ok res => rw [GetAccessToken_get_ok httpClient json client req res hne hget]

/-- C15 at the redirect request of the token test. -/
theorem GetAccessToken_calls_witness :
    Values.Get codeRequest.URL.Query codeParameter
        = str "7a6fa4dff77a228eeda56603b8f53806c883f011c40b72630bb50df056f6479e52a"
    ∧ (testClient.GetAccessToken (bodyClient (str "asdfasdf")) (fixedDecoder [] AccessToken.zero)
        codeRequest).calls
        = [str ("https://connect.mail.ru/access_token?client_id=APP_ID&client_secret=APP_SECRET" ++
            "&code=7a6fa4dff77a228eeda56603b8f53806c883f011c40b72630bb50df056f6479e52a" ++
            "&grant_type=authorization_code&redirect_uri=REDIRECT_URI")] :=
  ⟨by decide!,
   (GetAccessToken_calls (bodyClient (str "asdfasdf")) (fixedDecoder [] AccessToken.zero)
      testClient codeRequest
      (str "7a6fa4dff77a228eeda56603b8f53806c883f011c40b72630bb50df056f6479e52a")
      (by decide!) (by decide!)).trans (by decide!)⟩

/-! ## Decoding the token -/

namespace json

theorem tokenMember_of_index (st : Gookauth.AccessToken × Bool) (m : GoString × Value)
    (a lit v : GoString) (n : Int) (hst : st.2 = false)
    (h0 : fieldIndex tokenNames m.1 = some 0 → m.2 = .string a)
    (h1 : fieldIndex tokenNames m.1 = some 1 → m.2 = .number lit)
    (h2 : fieldIndex tokenNames m.1 = some 2 → m.2 = .string v)
    (hint : ParseInt lit = some n) :
    (tokenMember st m).2 = false
    ∧ (tokenMember st m).1.AccessToken
        = (if fieldIndex tokenNames m.1 = some 0 then a else st.1.AccessToken)
    ∧ (tokenMember st m).1.Expires
        = (if fieldIndex tokenNames m.1 = some 1 then n else st.1.Expires)
    ∧ (tokenMember st m).1.UserID
        = (if fieldIndex tokenNames m.1 = some 2 then v else st.1.UserID) := by
  cases h : fieldIndex tokenNames m.1 with
  | none => simp [tokenMember, h, hst]
  | some i =>
    rcases i with _ | _ | _ | i
    · simp [tokenMember, h, hst, h0 h, storeString]
    · simp [tokenMember, h, hst, h1 h, storeInt, hint]
    · simp [tokenMember, h, hst, h2 h, storeString]
    · simp [tokenMember, h, hst]

theorem tokenMembers_fold (ms : List (GoString × Value)) (a lit v : GoString) (n : Int)
    (hint : ParseInt lit = some n)
    (h0 : ∀ m ∈ ms, fieldIndex tokenNames m.1 = some 0 → m.2 = .string a)
    (h1 : ∀ m ∈ ms, fieldIndex tokenNames m.1 = some 1 → m.2 = .number lit)
    (h2 : ∀ m ∈ ms, fieldIndex tokenNames m.1 = some 2 → m.2 = .string v)
    (st : Gookauth.AccessToken × Bool) (hst : st.2 = false) :
    (ms.foldl tokenMember st).2 = false
    ∧ (ms.foldl tokenMember st).1.AccessToken
        = (if ∃ m ∈ ms, fieldIndex tokenNames m.1 = some 0 then a else st.1.AccessToken)
    ∧ (ms.foldl tokenMember st).1.Expires
        = (if ∃ m ∈ ms, fieldIndex tokenNames m.1 = some 1 then n else st.1.Expires)
    ∧ (ms.foldl tokenMember st).1.UserID
        = (if ∃ m ∈ ms, fieldIndex tokenNames m.1 = some 2 then v else st.1.UserID) := by
  induction ms generalizing st with
  | nil => simp [hst]
  | cons m rest ih =>
    have hm := tokenMember_of_index st m a lit v n hst (h0 m (List.mem_cons_self m rest))
      (h1 m (List.mem_cons_self m rest)) (h2 m (List.mem_cons_self m rest)) hint
    have hr := ih (fun x hx => h0 x (List.mem_cons_of_mem m hx))
      (fun x hx => h1 x (List.mem_cons_of_mem m hx))
      (fun x hx => h2 x (List.mem_cons_of_mem m hx)) (tokenMember st m) hm.1
    rw [List.foldl_cons]
    refine ⟨hr.1, ?_, ?_, ?_⟩
    · rw [hr.2.1, hm.2.1]
      by_cases e1 : ∃ x ∈ rest, fieldIndex tokenNames x.1 = some 0
      · have e2 : ∃ x ∈ m :: rest, fieldIndex tokenNames x.1 = some 0 := by
          obtain ⟨x, hx, hx2⟩ := e1
          exact ⟨x, List.mem_cons_of_mem m hx, hx2⟩
        simp only [e1, e2, if_true]
      · by_cases e3 : fieldIndex tokenNames m.1 = some 0
        · have e2 : ∃ x ∈ m :: rest, fieldIndex tokenNames x.1 = some 0 :=
            ⟨m, List.mem_cons_self m rest, e3⟩
          simp only [e1, e2, e3, if_true, if_false]
        · have e2 : ¬ ∃ x ∈ m :: rest, fieldIndex tokenNames x.1 = some 0 := by
            rintro ⟨x, hx, hx2⟩
            rcases List.mem_cons.mp hx with rfl | hx
            · exact e3 hx2
            · exact e1 ⟨x, hx, hx2⟩
          simp only [e1, e2, e3, if_false]
    · rw [hr.2.2.1, hm.2.2.1]
      by_cases e1 : ∃ x ∈ rest, fieldIndex tokenNames x.1 = some 1
      · have e2 : ∃ x ∈ m :: rest, fieldIndex tokenNames x.1 = some 1 := by
          obtain ⟨x, hx, hx2⟩ := e1
          exact ⟨x, List.mem_cons_of_mem m hx, hx2⟩
        simp only [e1, e2, if_true]
      · by_cases e3 : fieldIndex tokenNames m.1 = some 1
        · have e2 : ∃ x ∈ m :: rest, fieldIndex tokenNames x.1 = some 1 :=
            ⟨m, List.mem_cons_self m rest, e3⟩
          simp only [e1, e2, e3, if_true, if_false]
        · have e2 : ¬ ∃ x ∈ m :: rest, fieldIndex tokenNames x.1 = some 1 := by
            rintro ⟨x, hx, hx2⟩
            rcases List.mem_cons.mp hx with rfl | hx
            · exact e3 hx2
            · exact e1 ⟨x, hx, hx2⟩
          simp only [e1, e2, e3, if_false]
    · rw [hr.2.2.2, hm.2.2.2]
      by_cases e1 : ∃ x ∈ rest, fieldIndex tokenNames x.1 = some 2
      · have e2 : ∃ x ∈ m :: rest, fieldIndex tokenNames x.1 = some 2 := by
          obtain ⟨x, hx, hx2⟩ := e1
          exact ⟨x, List.mem_cons_of_mem m hx, hx2⟩
        simp only [e1, e2, if_true]
      · by_cases e3 : fieldIndex tokenNames m.1 = some 2
        · have e2 : ∃ x ∈ m :: rest, fieldIndex tokenNames x.1 = some 2 :=
            ⟨m, List.mem_cons_self m rest, e3⟩
          simp only [e1, e2, e3, if_true, if_false]
        · have e2 : ¬ ∃ x ∈ m :: rest, fieldIndex tokenNames x.1 = some 2 := by
            rintro ⟨x, hx, hx2⟩
            rcases List.mem_cons.mp hx with rfl | hx
            · exact e3 hx2
            · exact e1 ⟨x, hx, hx2⟩
          simp only [e1, e2, e3, if_false]

/-- Decoding an object in which each of the three fields of `AccessToken` is addressed,
and every member that addresses a field carries the expected value, gives these
values and no error. -/
theorem decodeToken_object (body : GoString) (ms : Members) (a lit v : GoString) (n : Int)
    (hbody : readValue body = .ok (.object ms))
    (hint : ParseInt lit = some n)
    (h0 : ∀ m ∈ Members.toList ms, fieldIndex tokenNames m.1 = some 0 → m.2 = .string a)
    (h1 : ∀ m ∈ Members.toList ms, fieldIndex tokenNames m.1 = some 1 → m.2 = .number lit)
    (h2 : ∀ m ∈ Members.toList ms, fieldIndex tokenNames m.1 = some 2 → m.2 = .string v)
    (hall : ∀ i < 3, ∃ m ∈ Members.toList ms, fieldIndex tokenNames m.1 = some i) :
    decodeToken body = (⟨a, n, v⟩, none) := by
  have hf := tokenMembers_fold (Members.toList ms) a lit v n hint h0 h1 h2
    (AccessToken.zero, false) rfl
  simp only [hall 0 (by decide), hall 1 (by decide), hall 2 (by decide), if_true] at hf
  simp only [decodeToken, hbody, hf.1]
  obtain ⟨_, e1, e2, e3⟩ := hf
  generalize (Members.toList ms).foldl tokenMember (AccessToken.zero, false) = r at e1 e2 e3
  obtain ⟨⟨x, y, z⟩, b⟩ := r
  simp only at e1 e2 e3
  simp [e1, e2, e3]

end json

/-- The body of the "Test getName" test decodes to the one user of the test, the
members `nick`, `sex`, `birthday` and `has_pic` being skipped. -/
theorem decodeUsers_userBody : encodingJSON.users userBody = ([testUser], none) := by
  decide!

/-- C11 fails on the code. On a request with a non-empty code, when the GET succeeds
and decoding the body fails with `e`, `GetAccessToken` returns `e` together with a
token that is not nil: the token the decoder was working on. -/
theorem GetAccessToken_error_with_token (httpClient : mockHTTPClient) (json : Decoder)
    (client : Client) (req : Request) (res : Response) (e : Error)
    (hcode : Values.Get req.URL.Query codeParameter ≠ [])
    (hget : httpClient.Get
      (client.accessTokenURL (Values.Get req.URL.Query codeParameter)).String = .ok res)
    (hdec : (json.token res.Body).2 = some e) :
    (client.GetAccessToken httpClient json req).err = some e
    ∧ (client.GetAccessToken httpClient json req).value = some (json.token res.Body).1
    ∧ (client.GetAccessToken httpClient json req).value ≠ none := by
  rw [GetAccessToken_get_ok httpClient json client req res hcode hget]
  simp [hdec]

/-- C11 fails at the "Bad response" test, whose body is `asdfasdf`: the error comes
with a token, all of whose fields are zero; and on a body whose `expires_in` is a
string the error comes with a token whose other fields are filled. -/
theorem GetAccessToken_error_with_token_witness :
    (testClient.GetAccessToken (bodyClient (str "asdfasdf")) encodingJSON codeRequest).err
        = some json.errSyntax
    ∧ (testClient.GetAccessToken (bodyClient (str "asdfasdf")) encodingJSON codeRequest).value
        = some AccessToken.zero
    ∧ (testClient.GetAccessToken (bodyClient partialTokenBody) encodingJSON codeRequest).err
        = some json.errType
    ∧ (testClient.GetAccessToken (bodyClient partialTokenBody) encodingJSON codeRequest).value
        = some ⟨str "T", 0, str "6492"⟩ :=
  ⟨(GetAccessToken_error_with_token (bodyClient (str "asdfasdf")) encodingJSON testClient
      codeRequest ⟨str "asdfasdf"⟩ json.errSyntax (by decide!) rfl (by decide!)).1,
   (GetAccessToken_error_with_token (bodyClient (str "asdfasdf")) encodingJSON testClient
      codeRequest ⟨str "asdfasdf"⟩ json.errSyntax (by decide!) rfl (by decide!)).2.1.trans
      (by decide!),
   (GetAccessToken_error_with_token (bodyClient partialTokenBody) encodingJSON testClient
      codeRequest ⟨partialTokenBody⟩ json.errType (by decide!) rfl (by decide!)).1,
   (GetAccessToken_error_with_token (bodyClient partialTokenBody) encodingJSON testClient
      codeRequest ⟨partialTokenBody⟩ json.errType (by decide!) rfl (by decide!)).2.1.trans
      (by decide!)⟩

/-- C14. When the GET succeeds and decoding the body fails with `e`, `GetUser` returns
`e`, not `ErrorBadResponse` of its own, and `GetAccessToken` (on a request with a
non-empty code) returns `e`.  With the decoder of `encoding/json`, decoding fails on
every body that is not JSON, and decoding users fails on every body that is a JSON
object. -/
theorem decode_error_returned (httpClient : mockHTTPClient) (client : Client) :
    (∀ (json : Decoder) (uid : GoString) (res : Response) (e : Error),
        httpClient.Get (client.getUserURL uid).String = .ok res →
        (json.users res.Body).2 = some e →
        (client.GetUser httpClient json uid).err = some e)
    ∧ (∀ (json : Decoder) (req : Request) (res : Response) (e : Error),
        Values.Get req.URL.Query codeParameter ≠ [] →
        httpClient.Get
          (client.accessTokenURL (Values.Get req.URL.Query codeParameter)).String = .ok res →
        (json.token res.Body).2 = some e →
        (client.GetAccessToken httpClient json req).err = some e)
    ∧ (∀ (body : GoString) (e : Error), json.readValue body = .error e →
        (encodingJSON.users body).2 = some e ∧ (encodingJSON.token body).2 = some e)
    ∧ (∀ (body : GoString) (ms : json.Members), json.readValue body = .ok (.object ms) →
        (encodingJSON.users body).2 = some json.errType) := by
  refine ⟨?_, ?_, ?_, ?_⟩
  · intro json uid res e hget hdec
    rw [GetUser_decode_error httpClient json client uid res e hget hdec]
  · intro json req res e hcode hget hdec
    rw [GetAccessToken_get_ok httpClient json client req res hcode hget]
    exact hdec
  · intro body e h
    simp [encodingJSON, json.decodeUsers, json.decodeToken, h]
  · intro body ms h
    simp [encodingJSON, json.decodeUsers, h]

/-- C14 at the "Bad response" test (`asdfasdf`) and at the "Server error" test (an
object where an array is expected). -/
theorem decode_error_returned_witness :
    (testClient.GetAccessToken (bodyClient (str "asdfasdf")) encodingJSON codeRequest).err
        = some json.errSyntax
    ∧ (testClient.GetUser (bodyClient (str "asdfasdf")) encodingJSON (str "6492")).err
        = some json.errSyntax
    ∧ (testClient.GetUser (bodyClient serverErrorBody) encodingJSON (str "6492")).err
        = some json.errType
    ∧ json.errType ≠ Error.ErrorBadResponse ∧ json.errSyntax ≠ Error.ErrorBadResponse :=
  ⟨(decode_error_returned (bodyClient (str "asdfasdf")) testClient).2.1 encodingJSON codeRequest
      ⟨str "asdfasdf"⟩ json.errSyntax (by decide!) rfl (by decide!),
   (decode_error_returned (bodyClient (str "asdfasdf")) testClient).1 encodingJSON (str "6492")
      ⟨str "asdfasdf"⟩ json.errSyntax rfl (by decide!),
   (decode_error_returned (bodyClient serverErrorBody) testClient).1 encodingJSON (str "6492")
      ⟨serverErrorBody⟩ json.errType rfl (by decide!),
   by decide!, by decide!⟩

/-- C16 as stated fails: a JSON object with `access_token = T`, `expires_in` an
integer and `x_mailru_vid = 6492` does not always give these three values without
error.  A further member whose key differs from `access_token` in case only is
stored in the same field, so `AccessToken` is `other`; and an integer written with
an exponent, or one that does not fit a 64-bit `int`, is a type error that leaves
`Expires` zero. -/
theorem GetAccessToken_token_counterexample :
    json.readValue foldedKeyTokenBody = .ok (.object foldedKeyTokenMembers)
    ∧ (testClient.GetAccessToken (bodyClient foldedKeyTokenBody) encodingJSON codeRequest).err
        = none
    ∧ (testClient.GetAccessToken (bodyClient foldedKeyTokenBody) encodingJSON codeRequest).value
        = some ⟨str "other", 43200, str "6492"⟩
    ∧ json.readValue exponentTokenBody = .ok (.object exponentTokenMembers)
    ∧ (testClient.GetAccessToken (bodyClient exponentTokenBody) encodingJSON codeRequest).err
        = some json.errType
    ∧ (testClient.GetAccessToken (bodyClient exponentTokenBody) encodingJSON codeRequest).value
        = some ⟨str "T", 0, str "6492"⟩
    ∧ json.readValue largeTokenBody = .ok (.object largeTokenMembers)
    ∧ (testClient.GetAccessToken (bodyClient largeTokenBody) encodingJSON codeRequest).err
        = some json.errType
    ∧ (testClient.GetAccessToken (bodyClient largeTokenBody) encodingJSON codeRequest).value
        = some ⟨str "T", 0, str "6492"⟩ := by
  decide!

/-- C16, amended. On a request with a non-empty code, when the GET succeeds and the
body is a JSON object in which `access_token`, `expires_in` and `x_mailru_vid` are
each present, and every member whose key is one of these names, exactly or under
case folding, carries respectively the string `a`, a number literal that `ParseInt`
reads as `n` (decimal digits with an optional sign, within 64 bits) and the string
`v`, `GetAccessToken` returns no error and the token with `AccessToken = a`,
`Expires = n` and `UserID = v`. -/
theorem GetAccessToken_token (httpClient : mockHTTPClient) (client : Client) (req : Request)
    (res : Response) (ms : json.Members) (a lit v : GoString) (n : Int)
    (hcode : Values.Get req.URL.Query codeParameter ≠ [])
    (hget : httpClient.Get
      (client.accessTokenURL (Values.Get req.URL.Query codeParameter)).String = .ok res)
    (hbody : json.readValue res.Body = .ok (.object ms))
    (hint : json.ParseInt lit = some n)
    (h0 : ∀ m ∈ json.Members.toList ms,
      json.fieldIndex json.tokenNames m.1 = some 0 → m.2 = .string a)
    (h1 : ∀ m ∈ json.Members.toList ms,
      json.fieldIndex json.tokenNames m.1 = some 1 → m.2 = .number lit)
    (h2 : ∀ m ∈ json.Members.toList ms,
      json.fieldIndex json.tokenNames m.1 = some 2 → m.2 = .string v)
    (hall : ∀ i < 3, ∃ m ∈ json.Members.toList ms, json.fieldIndex json.tokenNames m.1 = some i) :
    (client.GetAccessToken httpClient encodingJSON req).err = none
    ∧ (client.GetAccessToken httpClient encodingJSON req).value = some ⟨a, n, v⟩ := by
  rw [GetAccessToken_get_ok httpClient encodingJSON client req res hcode hget]
  have hd : encodingJSON.token res.Body = (⟨a, n, v⟩, none) :=
    json.decodeToken_object res.Body ms a lit v n hbody hint h0 h1 h2 hall
  simp [hd]

/-- C16, amended, at the token test of the repository. -/
theorem GetAccessToken_token_witness :
    json.readValue tokenBody = .ok (.object tokenMembers)
    ∧ (testClient.GetAccessToken (bodyClient tokenBody) encodingJSON codeRequest).err = none
    ∧ (testClient.GetAccessToken (bodyClient tokenBody) encodingJSON codeRequest).value
        = some ⟨str "533bacf01e11f55b536a565b57531ac114461ae8736d6506a3", 43200, str "6492"⟩ :=
  ⟨by decide!,
   (GetAccessToken_token (bodyClient tokenBody) testClient codeRequest ⟨tokenBody⟩ tokenMembers
      (str "533bacf01e11f55b536a565b57531ac114461ae8736d6506a3") (str "43200") (str "6492") 43200
      (by decide!) rfl (by decide!) (by decide!) (by decide!) (by decide!) (by decide!)
      (by decide!)).1,
   (GetAccessToken_token (bodyClient tokenBody) testClient codeRequest ⟨tokenBody⟩ tokenMembers
      (str "533bacf01e11f55b536a565b57531ac114461ae8736d6506a3") (str "43200") (str "6492") 43200
      (by decide!) rfl (by decide!) (by decide!) (by decide!) (by decide!) (by decide!)
      (by decide!)).2⟩

theorem getUserURL_Query (client : Client) (uid : GoString) :
    (client.getUserURL uid).Query
      = [(methodParameter, [usersGetAction]),
         (sigParameter,
           [client.signServer [(methodParameter, [usersGetAction]), (uidsParameter, [uid])]]),
         (uidsParameter, [uid])] := by
  rw [URL.Query, getUserURL_RawQuery, ParseQuery_joinAmp]
  rfl

theorem DialogURL_SecretKey (client : Client) (secretKey : GoString) :
    Client.DialogURL { client with SecretKey := secretKey } = client.DialogURL := by
  simp only [Client.DialogURL, Client.base]

theorem accessTokenURL_SecretKey (client : Client) (secretKey code : GoString) :
    Client.accessTokenURL { client with SecretKey := secretKey } code
      = client.accessTokenURL code := by
  simp only [Client.accessTokenURL, Client.base]

theorem getUserURL_fields (client : Client) (uid : GoString) :
    (client.getUserURL uid).Scheme = scheme ∧ (client.getUserURL uid).Host = apiHost
    ∧ (client.getUserURL uid).Path = [] := ⟨rfl, rfl, rfl⟩

theorem keys_getUser (sig uid : GoString) :
    Values.keys [(methodParameter, [usersGetAction]), (sigParameter, [sig]), (uidsParameter, [uid])]
      = [methodParameter, sigParameter, uidsParameter] := rfl

theorem Del_sig_getUser (sig uid : GoString) :
    Values.Del [(methodParameter, [usersGetAction]), (sigParameter, [sig]), (uidsParameter, [uid])]
        sigParameter
      = [(methodParameter, [usersGetAction]), (uidsParameter, [uid])] := rfl

/-- C17. For two clients that differ in `SecretKey` only, the dialog URL is the same,
the token-exchange URL is the same for every code, and the URLs `GetUser` passes to
the transport for the same uid have the same scheme, host and path, the same
parameter names, and the same parameters once `sig` is taken out. -/
theorem SecretKey_only_in_sig (client : Client) (secretKey : GoString) :
    Client.DialogURL { client with SecretKey := secretKey } = client.DialogURL
    ∧ (∀ code : GoString,
        Client.accessTokenURL { client with SecretKey := secretKey } code
          = client.accessTokenURL code)
    ∧ (∀ uid : GoString,
        (Client.getUserURL { client with SecretKey := secretKey } uid).Scheme
            = (client.getUserURL uid).Scheme
        ∧ (Client.getUserURL { client with SecretKey := secretKey } uid).Host
            = (client.getUserURL uid).Host
        ∧ (Client.getUserURL { client with SecretKey := secretKey } uid).Path
            = (client.getUserURL uid).Path
        ∧ Values.keys (Client.getUserURL { client with SecretKey := secretKey } uid).Query
            = Values.keys (client.getUserURL uid).Query
        ∧ Values.Del (Client.getUserURL { client with SecretKey := secretKey } uid).Query
              sigParameter
            = Values.Del (client.getUserURL uid).Query sigParameter) := by
  refine ⟨DialogURL_SecretKey client secretKey,
    fun code => accessTokenURL_SecretKey client secretKey code, fun uid => ⟨?_, ?_, ?_, ?_, ?_⟩⟩
  · rw [(getUserURL_fields _ uid).1, (getUserURL_fields client uid).1]
  · rw [(getUserURL_fields _ uid).2.1, (getUserURL_fields client uid).2.1]
  · rw [(getUserURL_fields _ uid).2.2, (getUserURL_fields client uid).2.2]
  · rw [getUserURL_Query, getUserURL_Query]
    exact (keys_getUser _ uid).trans (keys_getUser _ uid).symm
  · rw [getUserURL_Query, getUserURL_Query]
    exact (Del_sig_getUser _ uid).trans (Del_sig_getUser _ uid).symm

/-- C17 at the client of the tests and the secret of the signing test: the two URLs of
`GetUser` differ, and only in the value of `sig`. -/
theorem SecretKey_only_in_sig_test :
    (signTestClient.getUserURL (str "1")).String ≠ (testClient.getUserURL (str "1")).String
    ∧ Values.Del (signTestClient.getUserURL (str "1")).Query sigParameter
        = [(methodParameter, [usersGetAction]), (uidsParameter, [str "1"])]
    ∧ Values.Del (testClient.getUserURL (str "1")).Query sigParameter
        = [(methodParameter, [usersGetAction]), (uidsParameter, [str "1"])] :=
  ⟨by decide!,
   ((SecretKey_only_in_sig testClient (str "3dad9cbf9baaa0360c0f2ba372d25716")).2.2 (str "1")
      ).2.2.2.2.trans (by decide!),
   by decide!⟩

/-- C18. Parsing the query of the dialog URL and of the token-exchange URL gives
exactly the expected keys, each with one value: the original `ID`, `RedirectURL`,
`Scope`, `Secret` and code, byte for byte, whatever bytes they hold. -/
theorem Query_round_trip (client : Client) (code : GoString) :
    client.DialogURL.Query
        = [(appIDParameter, [client.ID]), (redirectParameter, [client.RedirectURL]),
           (responseTypeParameter, [responseTypeCode]), (scopeParameter, [client.Scope])]
    ∧ (client.accessTokenURL code).Query
        = [(appIDParameter, [client.ID]), (appSecretParameter, [client.Secret]),
           (codeParameter, [code]), (grantTypeParameter, [grantType]),
           (redirectParameter, [client.RedirectURL])] := by
  constructor
  · rw [URL.Query, DialogURL_RawQuery, ParseQuery_joinAmp]
    rfl
  · rw [URL.Query, accessTokenURL_RawQuery, ParseQuery_joinAmp]
    rfl

/-- C18 at a client and a code made of separators, escapes, spaces, non-ASCII text and
bytes that are not UTF-8. -/
theorem Query_round_trip_test :
    oddClient.DialogURL.String
        = str ("https://connect.mail.ru/oauth/authorize?client_id=a%26b%3Dc%3Bd+e%25%2B%23" ++
            "%D1%8F%FF%00&redirect_uri=http%3A%2F%2Fx%2Fy%3Fz%3D1%26w%3D2%23f%3Bg+h%252B%2B" ++
            "&response_type=code&scope=a+b%2Cc%2Bd%2520%FE")
    ∧ oddClient.DialogURL.Query
        = [(str "client_id", [oddClient.ID]), (str "redirect_uri", [oddClient.RedirectURL]),
           (str "response_type", [str "code"]), (str "scope", [oddClient.Scope])]
    ∧ (oddClient.accessTokenURL (str "c&d=e;f g%+#я" ++ [0x80])).Query
        = [(str "client_id", [oddClient.ID]), (str "client_secret", [oddClient.Secret]),
           (str "code", [str "c&d=e;f g%+#я" ++ [0x80]]),
           (str "grant_type", [str "authorization_code"]),
           (str "redirect_uri", [oddClient.RedirectURL])] :=
  ⟨by decide!, (Query_round_trip oddClient []).1,
   (Query_round_trip oddClient (str "c&d=e;f g%+#я" ++ [0x80])).2⟩

end Gookauth
